import Mathlib

/-!
Verification of the image tar-export load pipeline (`image/tarexport/bufferedreader.go`)
and the aufs squashfs mount helper (`daemon/graphdriver/aufs/squashfs.go`).

The Go code is shallowly embedded: pure functions become Lean functions, the
stateful load paths become explicit state passing over a `LoadState` record that
carries an event trace (one event per externally visible store/stream call),
and fallible collaborator calls (file reads, layer-store operations, image-store
operations) are environment functions returning `Option`.
-/

set_option maxHeartbeats 1000000

/-- A claimed ancestry edge collected during one load batch.
Mirrors Go `type parentLink struct { id, parentID image.ID }`. -/
structure ParentLink where
  id : String
  parentID : String
deriving DecidableEq, Inhabited, Repr

/-- Mirrors Go `validatedParentLinks`: for each link `p` of the batch, keep its
`parentID` if some link `p2` of the batch has `p2.id == p.parentID && p2.id != p.id`,
otherwise clear `parentID` to the empty string.  The Go loop appends `p` to `ret`
and then conditionally overwrites `ret[i].parentID`, which is exactly a map. -/
def validatedParentLinks (pl : List ParentLink) : List ParentLink :=
  pl.map fun p =>
    if pl.any (fun p2 => p2.id == p.parentID && p2.id != p.id) then p
    else { p with parentID := "" }

/-- An image record as fetched from the image store; only the history is
consulted by `checkValidParent` (Go compares history entries with
`reflect.DeepEqual`; entries are modelled as opaque strings). -/
structure ImageRec where
  history : List String
deriving DecidableEq, Inhabited, Repr

/-- The element-wise comparison loop of Go `checkValidParent`:
`for i, h := range parent.History { if !reflect.DeepEqual(h, img.History[i]) { return false } }`.
First argument is the parent's history, second the child's; the child is longer
whenever this is reached, so the truncation case is unreachable there. -/
def historyPrefixEq : List String → List String → Bool
  | [], _ => true
  | _ :: _, [] => false
  | h :: hs, ih :: ihs => h == ih && historyPrefixEq hs ihs

/-- Mirrors Go `checkValidParent(img, parent *image.Image) bool`. -/
def checkValidParent (img parent : ImageRec) : Bool :=
  if img.history.length == 0 && parent.history.length == 0 then true
  else if ((img.history.length : Int) - (parent.history.length : Int)) ≠ 1 then false
  else historyPrefixEq parent.history img.history

/-- One externally visible call made by the manifest load path: layer-store
lookups and registrations (tagged with the layer position within the item),
deferred reference releases, image creation, tag setting, progress writes and
parent commits. -/
inductive Event where
  | getLayer (idx : Nat) (chain : String) (res : Option String)
  | registerLayer (idx : Nat) (path : String) (diff : String)
  | releaseLayer (diff : String)
  | createImage (config : String) (imgID : String)
  | setTag (tag : String) (imgID : String)
  | writeOut (s : String)
  | setParent (id parentID : String)
deriving DecidableEq, Repr

/-- The parsed image config as produced by `image.NewFromJSON`: only the RootFS
type and DiffID list are consulted by `Load`. -/
structure ConfigRec where
  rootFSType : String
  diffIDs : List String
deriving DecidableEq, Repr

/-- Mirrors Go `manifestItem` (the fields `Load` consults). -/
structure ManifestItem where
  config : String
  layers : List String
  repoTags : List String
  parent : String
deriving DecidableEq, Repr

/-- External collaborators of the manifest load path, at their interfaces:
`hash` is `digest.FromBytes`, `lsGet` is the layer store's `Get` keyed by
ChainID (returning the found layer's DiffID), `register` is `loadLayer`
(open + decompress + `Register`) keyed by the layer path and returning the
registered layer's DiffID, `readConfig` is `ioutil.ReadFile` + `image.NewFromJSON`,
`create` is the image store's `Create` on the config blob, `refGet` the
reference store's `Get` on a tag and `isGet` the image store's `Get`. -/
structure LoadEnv where
  hash : String → String
  lsGet : String → Option String
  register : String → Option String
  readConfig : String → Option ConfigRec
  create : String → Option String
  refGet : String → Option String
  isGet : String → Option ImageRec

/-- Modelled from the spec: the layer store's `CreateChainID` is not under
`src/`; the spec defines the chain identity of an ordered DiffID sequence by
`chain(d0) = d0` and `chain(d0..di) = hash(chain(d0..d(i-1)) + " " + di)`. -/
def chainID (hash : String → String) : List String → String
  | [] => ""
  | d :: ds => ds.foldl (fun acc d2 => hash (acc ++ " " ++ d2)) d

/-- State threaded through Go `Load`'s manifest path: the event trace, the
stack of deferred `layer.ReleaseAndLog` calls, the accumulated
"Loaded image ID" string, the per-item tag counter and the collected parent
links. -/
structure LoadState where
  trace : List Event
  deferred : List String
  imageIDsStr : String
  imageRefCount : Nat
  parentLinks : List ParentLink
deriving DecidableEq, Repr

/-- The initial state of one `Load` call. -/
def initState : LoadState := ⟨[], [], "", 0, []⟩

/-- The DiffID of the layer obtained at one position of the manifest layer loop:
the store hit's DiffID when the claimed chain resolves, otherwise the freshly
registered layer's DiffID (`none` when registration fails). -/
def obtainedDiff (env : LoadEnv) (rootFS : List String) (path diffID : String) :
    Option String :=
  match env.lsGet (chainID env.hash (rootFS ++ [diffID])) with
  | some d => some d
  | none => env.register path

/-- The per-position layer loop of Go `Load` (`for i, diffID := range img.RootFS.DiffIDs`):
look up the claimed chain, register from the archive on a miss, push the held
reference onto the defer stack, verify the obtained DiffID against the claimed
one, and extend the rootFS with the claimed DiffID.  `idx` is the position of
the first pair within the item; the pairs are `(layer path, claimed DiffID)`. -/
def loadLayers (env : LoadEnv) : Nat → List (String × String) → List String → LoadState →
    LoadState × Option String
  | _, [], _, st => (st, none)
  | idx, (path, diffID) :: rest, rootFS, st =>
    let chain := chainID env.hash (rootFS ++ [diffID])
    match env.lsGet chain with
    | some ldiff =>
      let st1 : LoadState := { st with
        trace := st.trace ++ [.getLayer idx chain (some ldiff)],
        deferred := ldiff :: st.deferred }
      if diffID = ldiff then loadLayers env (idx + 1) rest (rootFS ++ [diffID]) st1
      else (st1, some ("invalid diffID for layer " ++ toString idx))
    | none =>
      match env.register path with
      | none =>
        ({ st with trace := st.trace ++ [.getLayer idx chain none] }, some "load layer error")
      | some adiff =>
        let st1 : LoadState := { st with
          trace := st.trace ++ [.getLayer idx chain none, .registerLayer idx path adiff],
          deferred := adiff :: st.deferred }
        if diffID = adiff then loadLayers env (idx + 1) rest (rootFS ++ [diffID]) st1
        else (st1, some ("invalid diffID for layer " ++ toString idx))

/-- The tag loop of Go `Load` together with `setLoadedTag`: write the
already-exists notice when the reference store maps the tag to a different
image, record the `AddTag` call, write the per-tag line and bump
`imageRefCount`.  `setLoadedTag`'s return value is discarded by `Load`, so tag
store failures never abort; tag reference parsing is an external collaborator
and the batch is modelled with well-formed tags.

`tagPreEvents` is the write `setLoadedTag` makes before `AddTag` when the
reference store already maps the tag to a different image. -/
def tagPreEvents (env : LoadEnv) (imgID tag : String) : List Event :=
  match env.refGet tag with
  | some prev =>
    if prev ≠ imgID then
      [.writeOut ("The image " ++ tag ++ " already exists, renaming the old one with ID "
        ++ prev ++ " to empty string\n")]
    else []
  | none => []

def setTags (env : LoadEnv) (imgID : String) : List String → LoadState → LoadState
  | [], st => st
  | tag :: rest, st =>
    setTags env imgID rest
      { st with
        trace := st.trace ++ tagPreEvents env imgID tag
          ++ [.setTag tag imgID, .writeOut ("Loaded image: " ++ tag ++ "\n")],
        imageRefCount := st.imageRefCount + 1 }

/-- One iteration of the `for _, m := range manifest` loop of Go `Load`:
read and parse the config, check the layer-count against the config's DiffIDs,
run the layer loop from an empty rootFS, create the image record, accumulate
the "Loaded image ID" line, reset and recount `imageRefCount` over the item's
tags, and record the item's parent link. -/
def loadItem (env : LoadEnv) (m : ManifestItem) (st : LoadState) : LoadState × Option String :=
  match env.readConfig m.config with
  | none => (st, some "config read error")
  | some cfg =>
    if m.layers.length ≠ cfg.diffIDs.length then
      (st, some ("invalid manifest, layers length mismatch: expected "
        ++ toString m.layers.length ++ ", got " ++ toString cfg.diffIDs.length))
    else
      match loadLayers env 0 (m.layers.zip cfg.diffIDs) [] st with
      | (st1, some e) => (st1, some e)
      | (st1, none) =>
        match env.create m.config with
        | none => (st1, some "create error")
        | some imgID =>
          let st2 : LoadState := { st1 with
            trace := st1.trace ++ [.createImage m.config imgID],
            imageIDsStr := st1.imageIDsStr ++ "Loaded image ID: " ++ imgID ++ "\n",
            imageRefCount := 0 }
          let st3 := setTags env imgID m.repoTags st2
          ({ st3 with parentLinks := st3.parentLinks ++ [⟨imgID, m.parent⟩] }, none)

/-- The manifest loop of Go `Load`: items are processed in order and the first
failing item aborts the whole load. -/
def loadItems (env : LoadEnv) : List ManifestItem → LoadState → LoadState × Option String
  | [], st => (st, none)
  | m :: ms, st =>
    match loadItem env m st with
    | (st1, some e) => (st1, some e)
    | (st1, none) => loadItems env ms st1

/-- Mirrors Go `setParentID`: fetch child and parent from the image store,
refuse the edge unless `checkValidParent` accepts it, otherwise record the
`SetParent` call. -/
def setParentID (env : LoadEnv) (id parentID : String) (st : LoadState) :
    LoadState × Option String :=
  match env.isGet id with
  | none => (st, some "set parent: get image error")
  | some img =>
    match env.isGet parentID with
    | none => (st, some "set parent: get parent error")
    | some parent =>
      if checkValidParent img parent then
        ({ st with trace := st.trace ++ [.setParent id parentID] }, none)
      else (st, some ("image " ++ parentID ++ " is not a valid parent for " ++ id))

/-- The parent-commit loop of Go `Load`: for each validated link with a
non-empty parent, commit through `setParentID`. -/
def commitParents (env : LoadEnv) : List ParentLink → LoadState → LoadState × Option String
  | [], st => (st, none)
  | p :: ps, st =>
    if p.parentID ≠ "" then
      match setParentID env p.id p.parentID st with
      | (st1, some e) => (st1, some e)
      | (st1, none) => commitParents env ps st1
    else commitParents env ps st

/-- Go `Load`'s manifest path up to and including the parent-commit loop,
before the final batched-output decision. -/
def loadCore (env : LoadEnv) (manifest : List ManifestItem) : LoadState × Option String :=
  match loadItems env manifest initState with
  | (st, some e) => (st, some e)
  | (st, none) => commitParents env (validatedParentLinks st.parentLinks) st

/-- Go `Load`, manifest path: process every manifest item, commit the validated
parent links, and emit the accumulated "Loaded image ID" lines exactly when
`imageRefCount` is zero at the end. -/
def Load (env : LoadEnv) (manifest : List ManifestItem) : LoadState × Option String :=
  match loadCore env manifest with
  | (st, some e) => (st, some e)
  | (st, none) =>
    if st.imageRefCount = 0 then
      ({ st with trace := st.trace ++ [.writeOut st.imageIDsStr] }, none)
    else (st, none)

/-- `Load` together with its deferred `layer.ReleaseAndLog` calls, which run at
function exit (most recently deferred first) on success and error alike. -/
def loadRun (env : LoadEnv) (manifest : List ManifestItem) : List Event × Option String :=
  match Load env manifest with
  | (st, r) => (st.trace ++ st.deferred.map Event.releaseLayer, r)

/-- Whether an event is an image-store `Create`. -/
def isCreateEvent : Event → Bool
  | .createImage _ _ => true
  | _ => false

/-- The image-store `Create` calls of a trace. -/
def createEvents (tr : List Event) : List Event := tr.filter isCreateEvent

/-- The layer position of a layer-store lookup or registration event. -/
def layerEventIdx : Event → Option Nat
  | .getLayer i _ _ => some i
  | .registerLayer i _ _ => some i
  | _ => none

/-- The DiffID of the layer reference an event acquires, if any: a successful
layer-store lookup or a registration. -/
def acquiredDiff : Event → Option String
  | .getLayer _ _ (some d) => some d
  | .registerLayer _ _ d => some d
  | _ => none

/-- Fixture: collaborators for a one-item load whose single layer registers
with a DiffID other than the claimed one. -/
def envC1 : LoadEnv where
  hash := fun s => s
  lsGet := fun _ => none
  register := fun _ => some "sha256:bad"
  readConfig := fun _ => some ⟨"layers", ["sha256:good"]⟩
  create := fun _ => some "img"
  refGet := fun _ => none
  isGet := fun _ => none

/-- Fixture: an image store holding a child image with history `[h0, h1]` under
key `c` and a parent image with history `[h0]` under key `p`. -/
def envC7 : LoadEnv where
  hash := fun s => s
  lsGet := fun _ => none
  register := fun _ => none
  readConfig := fun _ => none
  create := fun _ => none
  refGet := fun _ => none
  isGet := fun s =>
    if s = "c" then some ⟨["h0", "h1"]⟩
    else if s = "p" then some ⟨["h0"]⟩
    else none

/-- Fixture: a layer store that already holds the chain `sha256:d0`, and a
one-item manifest whose single layer claims exactly that DiffID. -/
def envC8 : LoadEnv where
  hash := fun s => s
  lsGet := fun c => if c = "sha256:d0" then some "sha256:d0" else none
  register := fun _ => none
  readConfig := fun c => if c = "cfg0" then some ⟨"layers", ["sha256:d0"]⟩ else none
  create := fun c => if c = "cfg0" then some "img0" else none
  refGet := fun _ => none
  isGet := fun _ => none

/-- Fixture: a two-item manifest batch; the first item carries one repo tag,
the second none; both configs, layers and creations succeed. -/
def envC4 : LoadEnv where
  hash := fun s => s
  lsGet := fun _ => none
  register := fun p =>
    if p = "l1" then some "sha256:d1" else if p = "l2" then some "sha256:d2" else none
  readConfig := fun c =>
    if c = "cfg1" then some ⟨"layers", ["sha256:d1"]⟩
    else if c = "cfg2" then some ⟨"layers", ["sha256:d2"]⟩
    else none
  create := fun c =>
    if c = "cfg1" then some "img1" else if c = "cfg2" then some "img2" else none
  refGet := fun _ => none
  isGet := fun _ => none

/-- One externally visible call of the legacy load path. -/
inductive LEvent where
  | register (oldID diff : String)
  | create (config imgID : String)
  | release (diff : String)
  | setParent (id parentID : String)
deriving DecidableEq, Repr

/-- A parent image as fetched from the image store by the legacy loader: its
RootFS DiffIDs and its history. -/
structure ImageFull where
  diffIDs : List String
  history : List String
deriving DecidableEq, Repr

/-- External collaborators of the legacy load path, at their interfaces:
`imageJSON` reads the per-directory config blob, `parseParent` is the
`json.Unmarshal` into `struct{ Parent string }`, `register` is `loadLayer` on
the directory's layer blob (returning the new layer's DiffID), and the rest
are `v1.HistoryFromConfig`, `v1.MakeConfigFromV1Config`, the image store's
`Create`/`Get`/`SetParent` and the layer store's `Release`. -/
structure LegacyEnv where
  imageJSON : String → Option String
  parseParent : String → Option String
  register : String → Option String
  historyFromConfig : String → Option String
  makeConfig : String → List String → List String → Option String
  isCreate : String → Option String
  isGet : String → Option ImageFull
  releaseOk : String → Bool
  setParentOk : String → String → Bool

/-- State of one legacy load: the legacy-ID → image-ID map (`legacyLoadedMap`)
and the event trace. -/
structure LegacyState where
  loadedMap : List (String × String)
  trace : List LEvent
deriving DecidableEq, Repr

/-- Result of one `legacyLoadImage` call: success, a Go error, or `spin` when
the fuel budget is exhausted (an execution that spins for every fuel never
terminates). -/
inductive LegacyRes where
  | ok
  | err (msg : String)
  | spin
deriving DecidableEq, Repr

/-- Result of the parent-resolution loop: the resolved parent image id, a Go
error, or fuel exhaustion. -/
inductive PRes where
  | ok (parentID : String)
  | err (msg : String)
  | spin
deriving DecidableEq, Repr

/-- The remainder of Go `legacyLoadImage` after the parent-resolution loop:
fetch the parent's RootFS and history when a parent was resolved, register the
layer blob (acquiring a reference), derive the history entry, build the v1
config, create the image, release the held layer reference, optionally set the
parent edge, and record the legacy-id mapping.  Note the release happens only
after image creation: the error returns in between leave the registered
reference unreleased, exactly as in the Go code. -/
def legacyFinish (env : LegacyEnv) (oldID js parentID : String) (st : LegacyState) :
    LegacyState × LegacyRes :=
  match (if parentID ≠ "" then (env.isGet parentID).map (fun p => (p.diffIDs, p.history))
         else some ([], [])) with
  | none => (st, .err "get parent image error")
  | some (rootFS0, history0) =>
    match env.register oldID with
    | none => (st, .err "load layer error")
    | some diff =>
      let st1 : LegacyState := { st with trace := st.trace ++ [.register oldID diff] }
      match env.historyFromConfig js with
      | none => (st1, .err "history from config error")
      | some h =>
        match env.makeConfig js (rootFS0 ++ [diff]) (history0 ++ [h]) with
        | none => (st1, .err "make config error")
        | some config =>
          match env.isCreate config with
          | none => (st1, .err "create error")
          | some imgID =>
            let st2 : LegacyState := { st1 with
              trace := st1.trace ++ [.create config imgID, .release diff] }
            if env.releaseOk diff then
              if parentID ≠ "" then
                let st3 : LegacyState := { st2 with
                  trace := st2.trace ++ [.setParent imgID parentID] }
                if env.setParentOk imgID parentID then
                  ({ st3 with loadedMap := (oldID, imgID) :: st3.loadedMap }, .ok)
                else (st3, .err "set parent error")
              else ({ st2 with loadedMap := (oldID, imgID) :: st2.loadedMap }, .ok)
            else (st2, .err "release error")

mutual
/-- Mirrors Go `legacyLoadImage`, fuel-indexed: return immediately when the
legacy id is already in the map; otherwise read and parse the config, resolve
a declared parent through `parentLoop`, and finish through `legacyFinish`.
The legacy-id mapping is recorded only at the very end, on success. -/
def legacyLoadImage (env : LegacyEnv) : Nat → String → LegacyState →
    LegacyState × LegacyRes
  | 0, _, st => (st, .spin)
  | fuel + 1, oldID, st =>
    if (st.loadedMap.lookup oldID).isSome then (st, .ok)
    else
      match env.imageJSON oldID with
      | none => (st, .err "read json error")
      | some js =>
        match env.parseParent js with
        | none => (st, .err "json unmarshal error")
        | some par =>
          if par ≠ "" then
            match parentLoop env fuel par st with
            | (st2, PRes.spin) => (st2, .spin)
            | (st2, PRes.err m) => (st2, .err m)
            | (st2, PRes.ok parentID) => legacyFinish env oldID js parentID st2
          else legacyFinish env oldID js "" st

/-- Mirrors the unbounded `for` loop in Go `legacyLoadImage` that resolves the
declared parent: check the map; on a miss recursively load the parent and loop
again; on a hit break with the mapped image id. -/
def parentLoop (env : LegacyEnv) : Nat → String → LegacyState → LegacyState × PRes
  | 0, _, st => (st, .spin)
  | fuel + 1, par, st =>
    match st.loadedMap.lookup par with
    | some pid => (st, .ok pid)
    | none =>
      match legacyLoadImage env fuel par st with
      | (st2, LegacyRes.ok) => parentLoop env fuel par st2
      | (st2, LegacyRes.err m) => (st2, .err m)
      | (st2, LegacyRes.spin) => (st2, .spin)
end

/-- `legacyLoadImage` exhausts every fuel budget on this input starting from an
empty map: the modelled execution never terminates. -/
def legacyDiverges (env : LegacyEnv) (oldID : String) : Prop :=
  ∀ fuel, (legacyLoadImage env fuel oldID ⟨[], []⟩).2 = LegacyRes.spin

/-- The DiffID registered by a legacy trace event, if any. -/
def registeredDiff : LEvent → Option String
  | .register _ d => some d
  | _ => none

/-- The DiffID released by a legacy trace event, if any. -/
def releasedDiff : LEvent → Option String
  | .release d => some d
  | _ => none

/-- Fixture: a legacy archive whose single directory `A` declares itself as
its own parent — a parent-pointer cycle. -/
def envC5 : LegacyEnv where
  imageJSON := fun oldID => if oldID = "A" then some "jsA" else none
  parseParent := fun js => if js = "jsA" then some "A" else none
  register := fun _ => some "sha256:dA"
  historyFromConfig := fun _ => some "hA"
  makeConfig := fun _ _ _ => some "cfgA"
  isCreate := fun _ => some "imgA"
  isGet := fun _ => none
  releaseOk := fun _ => true
  setParentOk := fun _ _ => true

/-- Fixture: an acyclic legacy archive `A → parent B → (root)` where every
collaborator succeeds. -/
def envC5W : LegacyEnv where
  imageJSON := fun oldID =>
    if oldID = "A" then some "jsA" else if oldID = "B" then some "jsB" else none
  parseParent := fun js =>
    if js = "jsA" then some "B" else if js = "jsB" then some "" else none
  register := fun oldID => if oldID = "A" then some "sha256:dA" else some "sha256:dB"
  historyFromConfig := fun _ => some "h"
  makeConfig := fun js _ _ => some ("cfg-" ++ js)
  isCreate := fun c => some ("img-" ++ c)
  isGet := fun _ => some ⟨[], []⟩
  releaseOk := fun _ => true
  setParentOk := fun _ _ => true

/-- Fixture: a legacy archive whose single root directory `A` registers its
layer fine but whose history derivation fails. -/
def envC6 : LegacyEnv where
  imageJSON := fun oldID => if oldID = "A" then some "jsA" else none
  parseParent := fun js => if js = "jsA" then some "" else none
  register := fun oldID => if oldID = "A" then some "sha256:dA" else none
  historyFromConfig := fun _ => none
  makeConfig := fun _ _ _ => none
  isCreate := fun _ => none
  isGet := fun _ => none
  releaseOk := fun _ => true
  setParentOk := fun _ _ => true

/-- The observable state of the `bufio.Reader` wrapped by `bufferedReadCloser`:
bytes already buffered away from the underlying reader, and the bytes the
underlying reader still holds.  `bufferedReadCloser` overrides `Read` to go
through the `bufio.Reader`, so reads see the buffered bytes first and no byte
is lost to a peek. -/
structure BufioReader where
  buf : List Nat
  src : List Nat
deriving DecidableEq, Repr

/-- `bufio.Reader.Peek n`: ensure at least `n` buffered bytes, reading from
the underlying source as needed, and return them without consuming; an error
when the whole stream holds fewer than `n` bytes. -/
def BufioReader.peek (r : BufioReader) (n : Nat) : Option (List Nat) × BufioReader :=
  if n ≤ r.buf.length then (some (r.buf.take n), r)
  else
    let need := n - r.buf.length
    if need ≤ r.src.length then
      (some ((r.buf ++ r.src.take need).take n), ⟨r.buf ++ r.src.take need, r.src.drop need⟩)
    else (none, ⟨r.buf ++ r.src, []⟩)

/-- Reading the wrapped reader to exhaustion through `bufferedReadCloser.Read`:
the buffered bytes followed by the rest of the underlying stream. -/
def BufioReader.readAll (r : BufioReader) : List Nat := r.buf ++ r.src

/-- The squashfs magic bytes `0x68 0x73 0x71 0x73` checked by `Load`. -/
def squashfsMagic : List Nat := [0x68, 0x73, 0x71, 0x73]

/-- Which path Go `Load` takes after the 4-byte peek, together with the bytes
that path will consume from the `bufferedReadCloser`. -/
inductive Dispatch where
  | squashfs (bytes : List Nat)
  | structuredTar (bytes : List Nat)
  | peekError
deriving DecidableEq, Repr

/-- The stream-classification head of Go `Load` (lines 71-87): wrap the input
in a `bufferedReadCloser`, peek 4 bytes (any peek error aborts), dispatch to
the squashfs loader when they equal the magic (`bytes.Compare(b, magic) == 0`),
otherwise untar the stream; either path then consumes the reader from byte 0. -/
def loadDispatch (input : List Nat) : Dispatch :=
  let r : BufioReader := ⟨[], input⟩
  match r.peek 4 with
  | (none, _) => .peekError
  | (some b, r2) =>
    if b = squashfsMagic then .squashfs r2.readAll
    else .structuredTar r2.readAll

/-- One externally visible step of the single-blob (squashfs) load path. -/
inductive SqEvent where
  | createTemp (path : String)
  | writeOut (s : String)
  | getLayer (chain : String) (found : Bool)
  | registerLayer (path : String)
  | rename (src dst : String)
  | releaseLayer (diff : String)
  | createImg (diffIDs : List String) (history : List String) (imgID : String)
deriving DecidableEq, Repr

/-- Whether a squashfs-path event is an image-store `Create`. -/
def isCreateImg : SqEvent → Bool
  | .createImg _ _ _ => true
  | _ => false

/-- External collaborators of the single-blob load path: the graph driver's
`Status()`, the uuid generator, the raw input bytes, the file operations
(create/copy/tar-write/hash), the layer store (`Get` by ChainID, `loadLayer`,
`GetCacheID`), the image store's `Create`, `json.Marshal` of the minimal image
(a function of its DiffID list and history), sha256 hex over bytes
(`hashBytes`), the synthesized one-entry archive's bytes as a function of its
body (`tarOf`), and `digest.FromBytes` (`hash`). -/
structure SqEnv where
  status : List (String × String)
  uuid : String
  input : List Nat
  createOk : String → Bool
  copyOk : Bool
  writeTarOk : Bool
  hashFileOk : Bool
  hashBytes : List Nat → String
  tarOf : String → List Nat
  lsGet : String → Option String
  register : String → Option String
  getCacheID : String → Option String
  create : String → Option String
  marshalImage : List String → List String → String
  hash : String → String

/-- The root-directory scan of `loadSquashFS`: the LAST "Root Dir" status pair
wins (`for _, val := range status { if val[0] == "Root Dir" { root = val[1] } }`). -/
def rootDirOf (status : List (String × String)) : String :=
  status.foldl (fun root val => if val.1 = "Root Dir" then val.2 else root) ""

/-- The tail of Go `loadSquashFS` once the layer is obtained (found or
registered): write the layer line, fetch the backend cache id keyed by the
DiffID cast to a ChainID, write the destination line, invoke the rename of the
temporary blob (its error is ignored by the Go code), defer the layer release,
verify the DiffID, append the DiffID to the rootFS — whose DiffIDs slice
already holds one zero-valued entry from `make([]layer.DiffID, 1)` — marshal
and create the minimal image, and write the loaded-image line.  The deferred
release runs on every exit from this point. -/
def loadSquashFSTail (env : SqEnv) (root tmpDestination : String) (rootFS : List String)
    (diffID obtained : String) (evs : List SqEvent) : List SqEvent × Option String :=
  let evs1 := evs ++ [SqEvent.writeOut ("layer:" ++ obtained ++ "\n")]
  match env.getCacheID diffID with
  | none => (evs1, some "get cache id error")
  | some cacheID =>
    let destination := root ++ "/squashfs/" ++ cacheID
    let evs2 := evs1 ++ [SqEvent.writeOut ("destination:" ++ destination ++ "\n"),
      SqEvent.rename tmpDestination destination]
    if diffID ≠ obtained then
      (evs2 ++ [SqEvent.releaseLayer obtained], some "invalid diffID for layer")
    else
      let rootFS2 := rootFS ++ [diffID]
      let config := env.marshalImage rootFS2 []
      match env.create config with
      | none => (evs2 ++ [SqEvent.releaseLayer obtained], some "create error")
      | some imgID =>
        (evs2 ++ [SqEvent.createImg rootFS2 [] imgID,
          SqEvent.writeOut ("Loaded image ID: " ++ imgID ++ "\n"),
          SqEvent.releaseLayer obtained], none)

/-- Go `loadSquashFS`: find the graph driver's root directory, tee the input
into a temporary blob file and a sha256 hasher, synthesize the one-entry
archive whose body is the hex hash, compute its DiffID, try the layer store by
the chain of the DiffID appended to the initial rootFS (whose DiffIDs slice is
`make([]layer.DiffID, 1)`, i.e. one zero-valued entry), register the synthetic
archive on a miss, and continue in `loadSquashFSTail`. -/
def loadSquashFS (env : SqEnv) : List SqEvent × Option String :=
  let root := rootDirOf env.status
  if root = "" then ([], some "cannot get root dir from graph driver")
  else
    let tmpDestination := root ++ "/squashfs/import-" ++ env.uuid
    let ev0 := [SqEvent.createTemp tmpDestination]
    if ¬ env.createOk tmpDestination then (ev0, some "create temp file error")
    else if ¬ env.copyOk then (ev0, some "copy error")
    else if ¬ env.writeTarOk then (ev0, some "write tar error")
    else if ¬ env.hashFileOk then (ev0, some "hash file error")
    else
      let diffID := "sha256:" ++ env.hashBytes (env.tarOf (env.hashBytes env.input))
      let rootFS : List String := [""]
      let chain := chainID env.hash (rootFS ++ [diffID])
      let ev1 := ev0 ++ [SqEvent.writeOut ("diffID:" ++ diffID ++ "\n")]
      match env.lsGet chain with
      | some ldiff =>
        loadSquashFSTail env root tmpDestination rootFS diffID ldiff
          (ev1 ++ [SqEvent.getLayer chain true, SqEvent.writeOut ("chainID:" ++ chain ++ "\n")])
      | none =>
        let ev2 := ev1 ++ [SqEvent.getLayer chain false,
          SqEvent.writeOut ("chainID:" ++ chain ++ "\n")]
        match env.register "content.tar" with
        | none => (ev2, some "load layer error")
        | some adiff =>
          loadSquashFSTail env root tmpDestination rootFS diffID adiff
            (ev2 ++ [SqEvent.registerLayer "content.tar"])

/-- Fixture: a single-blob input starting with the squashfs magic, with every
collaborator of the squashfs path succeeding and the registered layer's DiffID
matching the synthesized archive's. -/
def envC3 : SqEnv where
  status := [("Root Dir", "/var/lib/docker/aufs")]
  uuid := "u1"
  input := [0x68, 0x73, 0x71, 0x73]
  createOk := fun _ => true
  copyOk := true
  writeTarOk := true
  hashFileOk := true
  hashBytes := fun _ => "H"
  tarOf := fun _ => [0]
  lsGet := fun _ => none
  register := fun _ => some "sha256:H"
  getCacheID := fun _ => some "cache1"
  create := fun _ => some "imgX"
  marshalImage := fun _ _ => "cfg"
  hash := fun s => s

/-- Go `strings.Contains(s, sub)` over character lists. -/
def listContains (sub : List Char) : List Char → Bool
  | [] => sub.isEmpty
  | c :: cs => sub.isPrefixOf (c :: cs) || listContains sub cs

/-- Go `strings.Contains` on strings. -/
def strContains (s sub : String) : Bool := listContains sub.data s.data

/-- One externally visible step of `squashfsMount`: listing the mount table
(`exec.Command("mount")`) or mounting
(`exec.Command("mount", "-t", "squashfs", source, layer)`). -/
inductive MEvent where
  | execMountList
  | execMountSquash (source layer : String)
deriving DecidableEq, Repr

/-- External collaborators of `squashfsMount`: the driver's root path
(`a.rootPath()`), `os.Stat` success on a path, the mount table listing
(`none` models a failing `mount` invocation), and the squashfs mount command's
success. -/
structure MountEnv where
  rootPath : String
  statOk : String → Bool
  mountTable : Option String
  mountOk : String → String → Bool

/-- Mirrors Go `squashfsMount` (`path.Join` modelled as slash concatenation):
when the squashfs source file exists, list the mount table and mount the
source onto the layer's diff path only when the table does not already contain
that path; when the source does not exist, do nothing and return nil. -/
def squashfsMount (env : MountEnv) (name : String) : List MEvent × Option String :=
  let source := env.rootPath ++ "/squashfs/" ++ name
  let layer := env.rootPath ++ "/diff/" ++ name
  if env.statOk source then
    match env.mountTable with
    | none => ([.execMountList], some "mount list error")
    | some out =>
      if ¬ strContains out layer then
        if env.mountOk source layer then
          ([.execMountList, .execMountSquash source layer], none)
        else
          ([.execMountList, .execMountSquash source layer], some "mount error")
      else ([.execMountList], none)
  else ([], none)

/-- Fixture: a mount environment whose table already lists the diff path of
layer `n1` and nothing else. -/
def envC10 : MountEnv where
  rootPath := "/r"
  statOk := fun p => p = "/r/squashfs/n1"
  mountTable := some "/dev/loop0 on /r/diff/n1 type squashfs (ro)"
  mountOk := fun _ _ => true

/-- C2 helper: the per-link result of `validatedParentLinks`. -/
lemma validatedParentLinks_getElem? (pl : List ParentLink) (i : Nat) :
    (validatedParentLinks pl)[i]? = pl[i]?.map (fun p =>
      if pl.any (fun p2 => p2.id == p.parentID && p2.id != p.id) then p
      else { p with parentID := "" }) := by
  simp [validatedParentLinks]

lemma historyPrefixEq_iff (xs ys : List String) (h : xs.length ≤ ys.length) :
    historyPrefixEq xs ys = true ↔ xs = ys.take xs.length := by
  induction xs generalizing ys with
  | nil => simp [historyPrefixEq]
  | cons x xs ih =>
    cases ys with
    | nil => simp at h
    | cons y ys =>
      simp only [historyPrefixEq, Bool.and_eq_true, beq_iff_eq, List.length_cons,
        List.take_succ_cons, List.cons.injEq]
      constructor
      · rintro ⟨rfl, hrec⟩
        exact ⟨rfl, (ih ys (by simpa using h)).1 hrec⟩
      · rintro ⟨rfl, hrec⟩
        exact ⟨rfl, (ih ys (by simpa using h)).2 hrec⟩

/-- checkValidParent holds exactly when both histories are empty, or the child's
history extends the parent's by exactly one entry. -/
lemma checkValidParent_iff (img parent : ImageRec) :
    checkValidParent img parent = true ↔
      ((img.history = [] ∧ parent.history = []) ∨
       (img.history.length = parent.history.length + 1 ∧
        parent.history = img.history.take parent.history.length)) := by
  unfold checkValidParent
  split
  · rename_i hz
    rw [Bool.and_eq_true, beq_iff_eq, beq_iff_eq] at hz
    have h1 : img.history = [] := List.length_eq_zero.mp hz.1
    have h2 : parent.history = [] := List.length_eq_zero.mp hz.2
    simp [h1, h2]
  · rename_i hz
    rw [Bool.and_eq_true, beq_iff_eq, beq_iff_eq] at hz
    split
    · rename_i hd
      simp only [Bool.false_eq_true, false_iff]
      rintro (⟨h1, h2⟩ | ⟨h1, _⟩)
      · exact hz ⟨by simp [h1], by simp [h2]⟩
      · apply hd; rw [h1]; push_cast; ring
    · rename_i hd
      push_neg at hd
      have hlen : img.history.length = parent.history.length + 1 := by omega
      rw [historyPrefixEq_iff parent.history img.history (by omega)]
      constructor
      · intro h; exact Or.inr ⟨hlen, h⟩
      · rintro (⟨h1, h2⟩ | ⟨_, h2⟩)
        · exfalso; rw [h1, h2] at hlen; simp at hlen
        · exact h2

/-- The layer loop only appends layer-store events (lookup/registration) to the
trace, all tagged with positions at or after the starting index; the defer
stack grows by exactly the acquired references; the other fields are
untouched. -/
lemma loadLayers_shape (env : LoadEnv) :
    ∀ (pairs : List (String × String)) (idx : Nat) (rootFS : List String) (st : LoadState),
      ∃ evs, (loadLayers env idx pairs rootFS st).1.trace = st.trace ++ evs
        ∧ (∀ e ∈ evs, ∃ n, layerEventIdx e = some n ∧ idx ≤ n)
        ∧ (loadLayers env idx pairs rootFS st).1.deferred
            = (evs.filterMap acquiredDiff).reverse ++ st.deferred
        ∧ (loadLayers env idx pairs rootFS st).1.imageIDsStr = st.imageIDsStr
        ∧ (loadLayers env idx pairs rootFS st).1.imageRefCount = st.imageRefCount
        ∧ (loadLayers env idx pairs rootFS st).1.parentLinks = st.parentLinks := by
  intro pairs
  induction pairs with
  | nil =>
    intro idx rootFS st
    refine ⟨[], ?_, ?_, ?_, ?_, ?_, ?_⟩ <;> simp [loadLayers]
  | cons pr rest ih =>
    intro idx rootFS st
    obtain ⟨path, diffID⟩ := pr
    simp only [loadLayers]
    cases hg : env.lsGet (chainID env.hash (rootFS ++ [diffID])) with
    | some ldiff =>
      by_cases hd : diffID = ldiff
      · simp only [if_pos hd]
        obtain ⟨evs, h1, h2, h3, h4, h5, h6⟩ := ih (idx + 1) (rootFS ++ [diffID])
          { st with
            trace := st.trace ++ [.getLayer idx (chainID env.hash (rootFS ++ [diffID])) (some ldiff)],
            deferred := ldiff :: st.deferred }
        refine ⟨Event.getLayer idx (chainID env.hash (rootFS ++ [diffID])) (some ldiff) :: evs,
          ?_, ?_, ?_, ?_, ?_, ?_⟩
        · rw [h1]; simp
        · intro e he
          rcases List.mem_cons.mp he with rfl | he
          · exact ⟨idx, rfl, le_refl _⟩
          · obtain ⟨n, hn, hle⟩ := h2 e he
            exact ⟨n, hn, by omega⟩
        · rw [h3]; simp [acquiredDiff]
        · rw [h4]
        · rw [h5]
        · rw [h6]
      · simp only [if_neg hd]
        refine ⟨[Event.getLayer idx (chainID env.hash (rootFS ++ [diffID])) (some ldiff)],
          ?_, ?_, ?_, ?_, ?_, ?_⟩ <;>
          simp [acquiredDiff, layerEventIdx]
    | none =>
      cases hr : env.register path with
      | none =>
        refine ⟨[Event.getLayer idx (chainID env.hash (rootFS ++ [diffID])) none],
          ?_, ?_, ?_, ?_, ?_, ?_⟩ <;>
          simp [acquiredDiff, layerEventIdx]
      | some adiff =>
        by_cases hd : diffID = adiff
        · simp only [if_pos hd]
          obtain ⟨evs, h1, h2, h3, h4, h5, h6⟩ := ih (idx + 1) (rootFS ++ [diffID])
            { st with
              trace := st.trace ++ [.getLayer idx (chainID env.hash (rootFS ++ [diffID])) none,
                .registerLayer idx path adiff],
              deferred := adiff :: st.deferred }
          refine ⟨Event.getLayer idx (chainID env.hash (rootFS ++ [diffID])) none ::
            Event.registerLayer idx path adiff :: evs, ?_, ?_, ?_, ?_, ?_, ?_⟩
          · rw [h1]; simp
          · intro e he
            rcases List.mem_cons.mp he with rfl | he
            · exact ⟨idx, rfl, le_refl _⟩
            rcases List.mem_cons.mp he with rfl | he
            · exact ⟨idx, rfl, le_refl _⟩
            · obtain ⟨n, hn, hle⟩ := h2 e he
              exact ⟨n, hn, by omega⟩
          · rw [h3]; simp [acquiredDiff]
          · rw [h4]
          · rw [h5]
          · rw [h6]
        · simp only [if_neg hd]
          refine ⟨[Event.getLayer idx (chainID env.hash (rootFS ++ [diffID])) none,
            Event.registerLayer idx path adiff], ?_, ?_, ?_, ?_, ?_, ?_⟩ <;>
            simp [acquiredDiff, layerEventIdx]

/-- Events of `tagPreEvents` are plain writes. -/
lemma tagPreEvents_good (env : LoadEnv) (imgID tag : String) :
    ∀ e ∈ tagPreEvents env imgID tag,
      isCreateEvent e = false ∧ layerEventIdx e = none ∧ acquiredDiff e = none := by
  unfold tagPreEvents
  cases env.refGet tag with
  | none => simp
  | some prev =>
    by_cases h : prev ≠ imgID <;>
      simp [h, isCreateEvent, layerEventIdx, acquiredDiff]

/-- The tag loop appends only tag/write events, leaves the defer stack, the
accumulated line string and the parent links alone, and adds the number of tags
to `imageRefCount`. -/
lemma setTags_shape (env : LoadEnv) (imgID : String) :
    ∀ (tags : List String) (st : LoadState),
      ∃ evs, (setTags env imgID tags st).trace = st.trace ++ evs
        ∧ (∀ e ∈ evs, isCreateEvent e = false ∧ layerEventIdx e = none ∧ acquiredDiff e = none)
        ∧ (setTags env imgID tags st).deferred = st.deferred
        ∧ (setTags env imgID tags st).imageIDsStr = st.imageIDsStr
        ∧ (setTags env imgID tags st).imageRefCount = st.imageRefCount + tags.length
        ∧ (setTags env imgID tags st).parentLinks = st.parentLinks := by
  intro tags
  induction tags with
  | nil =>
    intro st
    refine ⟨[], ?_, ?_, ?_, ?_, ?_, ?_⟩ <;> simp [setTags]
  | cons tag rest ih =>
    intro st
    obtain ⟨evs, h1, h2, h3, h4, h5, h6⟩ := ih
      { st with
        trace := st.trace ++ tagPreEvents env imgID tag
          ++ [.setTag tag imgID, .writeOut ("Loaded image: " ++ tag ++ "\n")],
        imageRefCount := st.imageRefCount + 1 }
    refine ⟨tagPreEvents env imgID tag
      ++ [Event.setTag tag imgID, Event.writeOut ("Loaded image: " ++ tag ++ "\n")] ++ evs,
      ?_, ?_, ?_, ?_, ?_, ?_⟩
    · show (setTags env imgID rest _).trace = _
      rw [h1]; simp
    · intro e he
      simp only [List.append_assoc, List.mem_append] at he
      rcases he with hp | ht | hv
      · exact tagPreEvents_good env imgID tag e hp
      · rcases List.mem_cons.mp ht with rfl | ht
        · exact ⟨rfl, rfl, rfl⟩
        rcases List.mem_cons.mp ht with rfl | ht
        · exact ⟨rfl, rfl, rfl⟩
        · cases ht
      · exact h2 e hv
    · exact h3
    · exact h4
    · have h5x : (setTags env imgID (tag :: rest) st).imageRefCount
          = st.imageRefCount + 1 + rest.length := h5
      rw [h5x, List.length_cons]; omega
    · exact h6

/-- A layer-store event is never an image creation. -/
lemma isCreateEvent_false_of_layerIdx (e : Event) (n : Nat) (h : layerEventIdx e = some n) :
    isCreateEvent e = false := by
  cases e <;> simp_all [layerEventIdx, isCreateEvent]

/-- Appending events none of which are creations leaves `createEvents` alone. -/
lemma createEvents_append_none (tr evs : List Event)
    (h : ∀ e ∈ evs, isCreateEvent e = false) :
    createEvents (tr ++ evs) = createEvents tr := by
  unfold createEvents
  rw [List.filter_append]
  have : evs.filter isCreateEvent = [] := by
    rw [List.filter_eq_nil_iff]
    intro a ha
    simp [h a ha]
  rw [this, List.append_nil]

/-- Indexing a zip of equal-length lists. -/
lemma zip_getD (l1 l2 : List String) (j : Nat) (h1 : j < l1.length) (h2 : j < l2.length) :
    (l1.zip l2).getD j ("", "") = (l1.getD j "", l2.getD j "") := by
  induction l1 generalizing l2 j with
  | nil => simp at h1
  | cons a l ih =>
    cases l2 with
    | nil => simp at h2
    | cons b l' =>
      cases j with
      | zero => simp [List.zip_cons_cons, List.getD_cons_zero]
      | succ j =>
        simp only [List.zip_cons_cons, List.getD_cons_succ]
        exact ih l' j (by simpa using h1) (by simpa using h2)


/-- Splitting an append around a cons. -/
lemma cons_append_split (l : List String) (a : String) (l2 : List String) :
    l ++ a :: l2 = (l ++ [a]) ++ l2 := by
  simp

/-- If the layer at position `i` is obtained (found or registered) with a
DiffID other than the claimed one, and every earlier position verified, the
layer loop fails with the Go mismatch error for position `idx + i`. -/
lemma loadLayers_mismatch (env : LoadEnv) :
    ∀ (i : Nat) (pairs : List (String × String)) (idx : Nat) (rootFS : List String)
      (st : LoadState) (d : String),
      i < pairs.length →
      (∀ j, j < i → obtainedDiff env (rootFS ++ (pairs.map Prod.snd).take j)
          (pairs.getD j ("", "")).1 (pairs.getD j ("", "")).2 = some ((pairs.getD j ("", "")).2)) →
      obtainedDiff env (rootFS ++ (pairs.map Prod.snd).take i)
          (pairs.getD i ("", "")).1 (pairs.getD i ("", "")).2 = some d →
      d ≠ (pairs.getD i ("", "")).2 →
      ∃ st2, loadLayers env idx pairs rootFS st
          = (st2, some ("invalid diffID for layer " ++ toString (idx + i))) := by
  intro i
  induction i with
  | zero =>
    intro pairs idx rootFS st d hlen hver hobt hne
    cases pairs with
    | nil => simp at hlen
    | cons pr rest =>
      obtain ⟨path, diffID⟩ := pr
      simp only [List.getD_cons_zero, List.take_zero, List.append_nil] at hobt hne
      unfold obtainedDiff at hobt
      simp only [Nat.add_zero]
      cases hg : env.lsGet (chainID env.hash (rootFS ++ [diffID])) with
      | some ldiff =>
        rw [hg] at hobt
        simp only [Option.some.injEq] at hobt
        subst hobt
        simp only [loadLayers, hg]
        rw [if_neg (Ne.symm hne)]
        exact ⟨_, rfl⟩
      | none =>
        rw [hg] at hobt
        simp only [Option.some.injEq] at hobt
        simp only [loadLayers, hg, hobt]
        rw [if_neg (Ne.symm hne)]
        exact ⟨_, rfl⟩
  | succ k ihk =>
    intro pairs idx rootFS st d hlen hver hobt hne
    cases pairs with
    | nil => simp at hlen
    | cons pr rest =>
      obtain ⟨path, diffID⟩ := pr
      have h0 := hver 0 (Nat.succ_pos k)
      simp only [List.getD_cons_zero, List.take_zero, List.append_nil] at h0
      have hver2 : ∀ j, j < k →
          obtainedDiff env ((rootFS ++ [diffID]) ++ (rest.map Prod.snd).take j)
            (rest.getD j ("", "")).1 (rest.getD j ("", "")).2
            = some ((rest.getD j ("", "")).2) := by
        intro j hj
        have h := hver (j + 1) (by omega)
        simp only [List.map_cons, List.take_succ_cons, List.getD_cons_succ] at h
        rw [cons_append_split] at h
        exact h
      have hobt2 : obtainedDiff env ((rootFS ++ [diffID]) ++ (rest.map Prod.snd).take k)
          (rest.getD k ("", "")).1 (rest.getD k ("", "")).2 = some d := by
        have h := hobt
        simp only [List.map_cons, List.take_succ_cons, List.getD_cons_succ] at h
        rw [cons_append_split] at h
        exact h
      have hne2 : d ≠ (rest.getD k ("", "")).2 := by
        simpa only [List.getD_cons_succ] using hne
      have hlen2 : k < rest.length := by
        simpa using hlen
      unfold obtainedDiff at h0
      cases hg : env.lsGet (chainID env.hash (rootFS ++ [diffID])) with
      | some ldiff =>
        rw [hg] at h0
        simp only [Option.some.injEq] at h0
        subst ldiff
        simp only [loadLayers, hg]
        simp only [if_true]
        obtain ⟨st2, hrec⟩ := ihk rest (idx + 1) (rootFS ++ [diffID]) _ d hlen2 hver2 hobt2 hne2
        rw [show idx + (k + 1) = idx + 1 + k by omega]
        exact ⟨st2, hrec⟩
      | none =>
        rw [hg] at h0
        simp only [Option.some.injEq] at h0
        simp only [loadLayers, hg, h0]
        simp only [if_true]
        obtain ⟨st2, hrec⟩ := ihk rest (idx + 1) (rootFS ++ [diffID]) _ d hlen2 hver2 hobt2 hne2
        rw [show idx + (k + 1) = idx + 1 + k by omega]
        exact ⟨st2, hrec⟩

/-- Processing a concatenated manifest processes the first part, then the
second from the resulting state, aborting at the first error. -/
lemma loadItems_append (env : LoadEnv) :
    ∀ (a b : List ManifestItem) (st : LoadState),
      loadItems env (a ++ b) st =
        match loadItems env a st with
        | (st1, some e) => (st1, some e)
        | (st1, none) => loadItems env b st1 := by
  intro a
  induction a with
  | nil => intro b st; simp [loadItems]
  | cons m ms ih =>
    intro b st
    simp only [List.cons_append, loadItems]
    rcases hm : loadItem env m st with ⟨st1, r⟩
    cases r with
    | none => rw [List.append_eq]; exact ih b st1
    | some e => rfl

/-- C1: in the manifest load path, for every manifest item and every layer
position `i`, if the layer obtained at position `i` (fetched from the store or
newly registered) has a DiffID different from the DiffID claimed at position
`i` in the config's RootFS, `Load` returns the mismatch error immediately, the
whole load aborts, and no image record is created for that manifest item (nor
for any later one): the image-store `Create` calls are exactly those of the
items processed before it. -/
theorem load_mismatch_aborts (env : LoadEnv) (pre post : List ManifestItem) (m : ManifestItem)
    (cfg : ConfigRec) (i : Nat) (d : String) (stPre : LoadState)
    (hpre : loadItems env pre initState = (stPre, none))
    (hcfg : env.readConfig m.config = some cfg)
    (hlen : m.layers.length = cfg.diffIDs.length)
    (hver : ∀ j, j < i → obtainedDiff env (cfg.diffIDs.take j)
        (m.layers.getD j "") (cfg.diffIDs.getD j "") = some (cfg.diffIDs.getD j ""))
    (hi : i < cfg.diffIDs.length)
    (hobt : obtainedDiff env (cfg.diffIDs.take i) (m.layers.getD i "") (cfg.diffIDs.getD i "")
        = some d)
    (hne : d ≠ cfg.diffIDs.getD i "") :
    ∃ st2, Load env (pre ++ m :: post) = (st2, some ("invalid diffID for layer " ++ toString i))
      ∧ createEvents st2.trace = createEvents stPre.trace := by
  have hmapsnd : (m.layers.zip cfg.diffIDs).map Prod.snd = cfg.diffIDs :=
    List.map_snd_zip m.layers cfg.diffIDs (le_of_eq hlen.symm)
  have hziplen : (m.layers.zip cfg.diffIDs).length = cfg.diffIDs.length := by
    rw [List.length_zip, hlen]; omega
  have hgd : ∀ j, j < cfg.diffIDs.length →
      (m.layers.zip cfg.diffIDs).getD j ("", "") = (m.layers.getD j "", cfg.diffIDs.getD j "") := by
    intro j hj
    exact zip_getD m.layers cfg.diffIDs j (by omega) hj
  obtain ⟨stL, hL⟩ := loadLayers_mismatch env i (m.layers.zip cfg.diffIDs) 0 [] stPre d
    (by omega)
    (by
      intro j hj
      rw [hmapsnd, hgd j (by omega), List.nil_append]
      exact hver j hj)
    (by
      rw [hmapsnd, hgd i hi, List.nil_append]
      exact hobt)
    (by
      rw [hgd i hi]
      exact hne)
  have hitem : loadItem env m stPre = (stL, some ("invalid diffID for layer " ++ toString (0 + i))) := by
    simp only [loadItem, hcfg]
    rw [if_neg (by omega)]
    rw [hL]
  have htrace : createEvents stL.trace = createEvents stPre.trace := by
    obtain ⟨evs, h1, h2, _⟩ := loadLayers_shape env (m.layers.zip cfg.diffIDs) 0 [] stPre
    rw [hL] at h1
    rw [h1]
    exact createEvents_append_none stPre.trace evs
      (fun e he => by
        obtain ⟨n, hn, _⟩ := h2 e he
        exact isCreateEvent_false_of_layerIdx e n hn)
  have hitems : loadItems env (pre ++ m :: post) initState
      = (stL, some ("invalid diffID for layer " ++ toString (0 + i))) := by
    rw [loadItems_append env pre (m :: post) initState, hpre]
    simp only [loadItems, hitem]
  refine ⟨stL, ?_, htrace⟩
  simp only [Load, loadCore, hitems, Nat.zero_add]

/-- Witness for C1 at a concrete one-item manifest whose layer registers with
DiffID `sha256:bad` while the config claims `sha256:good`. -/
theorem load_mismatch_aborts_witness :
    loadItems envC1 [] initState = (initState, none) ∧
    envC1.readConfig "cfg" = some ⟨"layers", ["sha256:good"]⟩ ∧
    obtainedDiff envC1 [] "l0" "sha256:good" = some "sha256:bad" ∧
    ∃ st2, Load envC1 [⟨"cfg", ["l0"], [], ""⟩]
        = (st2, some ("invalid diffID for layer " ++ toString 0))
      ∧ createEvents st2.trace = createEvents initState.trace :=
  ⟨rfl, rfl, rfl,
    load_mismatch_aborts envC1 [] [] ⟨"cfg", ["l0"], [], ""⟩ ⟨"layers", ["sha256:good"]⟩
      0 "sha256:bad" initState rfl rfl rfl
      (fun j hj => absurd hj (Nat.not_lt_zero j))
      (by decide) rfl (by decide)⟩

/-- C2: `validatedParentLinks` is a pure filter: the output has the same
length, order and `id` fields as the input, each output link keeps its claimed
`parentID` exactly when some other link of the batch (with a different `id`)
has that `id`, and gets the empty id otherwise; the spec's example batch
`[{A,parent:B},{B,parent:empty},{C,parent:Z}]` with `Z` absent validates to
`[{A,B},{B,empty},{C,empty}]`. -/
theorem validatedParentLinks_pure_filter (pl : List ParentLink) :
    (validatedParentLinks pl).length = pl.length
    ∧ (validatedParentLinks pl).map ParentLink.id = pl.map ParentLink.id
    ∧ (∀ i : Nat, ((validatedParentLinks pl).getD i default).id = (pl.getD i default).id
        ∧ ((validatedParentLinks pl).getD i default).parentID =
          (if ∃ p2 ∈ pl, p2.id = (pl.getD i default).parentID ∧ p2.id ≠ (pl.getD i default).id
           then (pl.getD i default).parentID else ""))
    ∧ validatedParentLinks [⟨"A", "B"⟩, ⟨"B", ""⟩, ⟨"C", "Z"⟩]
        = [⟨"A", "B"⟩, ⟨"B", ""⟩, ⟨"C", ""⟩] := by
  have hcond : ∀ p : ParentLink,
      (pl.any (fun p2 => p2.id == p.parentID && p2.id != p.id) = true)
        ↔ (∃ p2 ∈ pl, p2.id = p.parentID ∧ p2.id ≠ p.id) := by
    intro p
    simp [List.any_eq_true, Bool.and_eq_true, beq_iff_eq, bne_iff_ne]
  refine ⟨by simp [validatedParentLinks], ?_, ?_, by decide⟩
  · simp only [validatedParentLinks, List.map_map]
    apply List.map_congr_left
    intro p _
    simp only [Function.comp_apply]
    split <;> rfl
  · intro i
    rw [List.getD_eq_getElem?_getD, List.getD_eq_getElem?_getD, validatedParentLinks_getElem?]
    cases hi : pl[i]? with
    | none =>
      simp only [Option.map_none', Option.getD_none]
      refine ⟨trivial, ?_⟩
      rw [if_neg ?_]
      · rfl
      · rintro ⟨p2, _, h1, h2⟩
        exact h2 h1
    | some p =>
      simp only [Option.map_some', Option.getD_some]
      refine ⟨?_, ?_⟩
      · split <;> rfl
      · by_cases h : pl.any (fun p2 => p2.id == p.parentID && p2.id != p.id)
        · rw [if_pos h, if_pos ((hcond p).mp h)]
        · rw [if_neg h, if_neg (fun hc => h ((hcond p).mpr hc))]

/-- C7: `setParentID` commits a parent edge exactly when the claimed parent is
structurally valid — either both child and parent have empty history, or the
child's history is exactly one entry longer than the parent's and every parent
history entry equals the corresponding prefix entry of the child's history;
otherwise it returns an error and the `SetParent` call is never made. -/
theorem setParentID_commits_iff_valid (env : LoadEnv) (cid pid : String)
    (img parent : ImageRec) (st : LoadState)
    (himg : env.isGet cid = some img) (hpar : env.isGet pid = some parent) :
    (checkValidParent img parent = true ↔
      ((img.history = [] ∧ parent.history = []) ∨
       (img.history.length = parent.history.length + 1 ∧
        parent.history = img.history.take parent.history.length)))
    ∧ (checkValidParent img parent = true →
        setParentID env cid pid st
          = ({ st with trace := st.trace ++ [Event.setParent cid pid] }, none))
    ∧ (checkValidParent img parent = false →
        setParentID env cid pid st
          = (st, some ("image " ++ pid ++ " is not a valid parent for " ++ cid))) := by
  refine ⟨checkValidParent_iff img parent, ?_, ?_⟩
  · intro h
    simp only [setParentID, himg, hpar, h, if_true]
  · intro h
    simp only [setParentID, himg, hpar, h, Bool.false_eq_true, if_false]

/-- Witness for C7: the concrete parent/child pair of `envC7` is structurally
valid and its edge is committed. -/
theorem setParentID_commits_iff_valid_witness :
    envC7.isGet "c" = some ⟨["h0", "h1"]⟩ ∧
    envC7.isGet "p" = some ⟨["h0"]⟩ ∧
    ((checkValidParent ⟨["h0", "h1"]⟩ ⟨["h0"]⟩ = true ↔
      (((["h0", "h1"] : List String) = [] ∧ (["h0"] : List String) = []) ∨
       ((["h0", "h1"] : List String).length = (["h0"] : List String).length + 1 ∧
        (["h0"] : List String) = (["h0", "h1"] : List String).take (["h0"] : List String).length)))
    ∧ (checkValidParent ⟨["h0", "h1"]⟩ ⟨["h0"]⟩ = true →
        setParentID envC7 "c" "p" initState
          = ({ initState with trace := initState.trace ++ [Event.setParent "c" "p"] }, none))
    ∧ (checkValidParent ⟨["h0", "h1"]⟩ ⟨["h0"]⟩ = false →
        setParentID envC7 "c" "p" initState
          = (initState, some ("image " ++ "p" ++ " is not a valid parent for " ++ "c")))) :=
  ⟨by decide, by decide,
    setParentID_commits_iff_valid envC7 "c" "p" ⟨["h0", "h1"]⟩ ⟨["h0"]⟩ initState
      (by decide) (by decide)⟩

/-- When the first `i` positions all verify, the layer loop reaches position
`i`: it equals the loop restarted at `idx + i` on the remaining pairs with the
rootFS extended by the first `i` claimed DiffIDs, from a state whose trace has
grown only by layer events at positions before `idx + i` and whose defer stack
has only grown. -/
lemma loadLayers_reach (env : LoadEnv) :
    ∀ (i : Nat) (pairs : List (String × String)) (idx : Nat) (rootFS : List String)
      (st : LoadState),
      i ≤ pairs.length →
      (∀ j, j < i → obtainedDiff env (rootFS ++ (pairs.map Prod.snd).take j)
          (pairs.getD j ("", "")).1 (pairs.getD j ("", "")).2 = some ((pairs.getD j ("", "")).2)) →
      ∃ sti evs, loadLayers env idx pairs rootFS st
          = loadLayers env (idx + i) (pairs.drop i) (rootFS ++ (pairs.map Prod.snd).take i) sti
        ∧ sti.trace = st.trace ++ evs
        ∧ (∀ e ∈ evs, ∃ n, layerEventIdx e = some n ∧ n < idx + i)
        ∧ (∃ ds, sti.deferred = ds ++ st.deferred) := by
  intro i
  induction i with
  | zero =>
    intro pairs idx rootFS st _ _
    refine ⟨st, [], ?_, by simp, by simp, ⟨[], by simp⟩⟩
    simp
  | succ k ihk =>
    intro pairs idx rootFS st hlen hver
    cases pairs with
    | nil => simp at hlen
    | cons pr rest =>
      obtain ⟨path, diffID⟩ := pr
      have h0 := hver 0 (Nat.succ_pos k)
      simp only [List.getD_cons_zero, List.take_zero, List.append_nil] at h0
      have hver2 : ∀ j, j < k →
          obtainedDiff env ((rootFS ++ [diffID]) ++ (rest.map Prod.snd).take j)
            (rest.getD j ("", "")).1 (rest.getD j ("", "")).2
            = some ((rest.getD j ("", "")).2) := by
        intro j hj
        have h := hver (j + 1) (by omega)
        simp only [List.map_cons, List.take_succ_cons, List.getD_cons_succ] at h
        rw [cons_append_split] at h
        exact h
      have hlen2 : k ≤ rest.length := by
        simpa using hlen
      unfold obtainedDiff at h0
      have hgoalshape : (((path, diffID) :: rest).map Prod.snd).take (k + 1)
          = diffID :: (rest.map Prod.snd).take k := by
        simp
      cases hg : env.lsGet (chainID env.hash (rootFS ++ [diffID])) with
      | some ldiff =>
        rw [hg] at h0
        simp only [Option.some.injEq] at h0
        subst ldiff
        obtain ⟨sti, evs, he, ht, hidx, hds⟩ := ihk rest (idx + 1) (rootFS ++ [diffID])
          { st with
            trace := st.trace ++ [.getLayer idx (chainID env.hash (rootFS ++ [diffID])) (some diffID)],
            deferred := diffID :: st.deferred }
          hlen2 hver2
        refine ⟨sti,
          Event.getLayer idx (chainID env.hash (rootFS ++ [diffID])) (some diffID) :: evs,
          ?_, ?_, ?_, ?_⟩
        · simp only [loadLayers, hg, if_true]
          rw [he, hgoalshape]
          rw [show idx + (k + 1) = idx + 1 + k by omega, List.drop_succ_cons,
            cons_append_split]
          simp
        · rw [ht]; simp
        · intro e he2
          rcases List.mem_cons.mp he2 with rfl | he2
          · exact ⟨idx, rfl, by omega⟩
          · obtain ⟨n, hn, hlt⟩ := hidx e he2
            exact ⟨n, hn, by omega⟩
        · obtain ⟨ds, hd⟩ := hds
          exact ⟨ds ++ [diffID], by rw [hd]; simp⟩
      | none =>
        rw [hg] at h0
        simp only [Option.some.injEq] at h0
        obtain ⟨sti, evs, he, ht, hidx, hds⟩ := ihk rest (idx + 1) (rootFS ++ [diffID])
          { st with
            trace := st.trace ++ [.getLayer idx (chainID env.hash (rootFS ++ [diffID])) none,
              .registerLayer idx path diffID],
            deferred := diffID :: st.deferred }
          hlen2 hver2
        refine ⟨sti,
          Event.getLayer idx (chainID env.hash (rootFS ++ [diffID])) none ::
            Event.registerLayer idx path diffID :: evs,
          ?_, ?_, ?_, ?_⟩
        · simp only [loadLayers, hg, h0, if_true]
          rw [he, hgoalshape]
          rw [show idx + (k + 1) = idx + 1 + k by omega, List.drop_succ_cons,
            cons_append_split]
          simp
        · rw [ht]; simp
        · intro e he2
          rcases List.mem_cons.mp he2 with rfl | he2
          · exact ⟨idx, rfl, by omega⟩
          rcases List.mem_cons.mp he2 with rfl | he2
          · exact ⟨idx, rfl, by omega⟩
          · obtain ⟨n, hn, hlt⟩ := hidx e he2
            exact ⟨n, hn, by omega⟩
        · obtain ⟨ds, hd⟩ := hds
          exact ⟨ds ++ [diffID], by rw [hd]; simp⟩

/-- C8: in the manifest load path, a layer position whose claimed ChainID
already resolves in the layer store is reused, not re-registered: (1) when
position `i`'s lookup succeeds, the layer loop records the successful lookup,
performs no registration for that position, and pushes the found layer's
reference onto the defer stack; (2) every deferred reference is released at
`Load` exit. -/
theorem chain_hit_no_register :
    (∀ (env : LoadEnv) (idx : Nat) (pairs : List (String × String)) (rootFS : List String)
       (st : LoadState) (i : Nat) (path diffID ldiff : String),
      pairs[i]? = some (path, diffID) →
      (∀ j, j < i → obtainedDiff env (rootFS ++ (pairs.map Prod.snd).take j)
          (pairs.getD j ("", "")).1 (pairs.getD j ("", "")).2 = some ((pairs.getD j ("", "")).2)) →
      env.lsGet (chainID env.hash ((rootFS ++ (pairs.map Prod.snd).take i) ++ [diffID]))
          = some ldiff →
      (∀ p2 d2, Event.registerLayer (idx + i) p2 d2 ∈ (loadLayers env idx pairs rootFS st).1.trace
          → Event.registerLayer (idx + i) p2 d2 ∈ st.trace)
        ∧ Event.getLayer (idx + i)
            (chainID env.hash ((rootFS ++ (pairs.map Prod.snd).take i) ++ [diffID])) (some ldiff)
            ∈ (loadLayers env idx pairs rootFS st).1.trace
        ∧ ldiff ∈ (loadLayers env idx pairs rootFS st).1.deferred)
    ∧ (∀ (env : LoadEnv) (manifest : List ManifestItem) (st : LoadState) (r : Option String),
        Load env manifest = (st, r) →
        ∀ dd ∈ st.deferred, Event.releaseLayer dd ∈ (loadRun env manifest).1) := by
  constructor
  · intro env idx pairs rootFS st i path diffID ldiff hi hver hget
    have hilen : i < pairs.length := by
      by_contra hc
      rw [List.getElem?_eq_none (by omega)] at hi
      exact Option.noConfusion hi
    obtain ⟨hlt, heq⟩ := List.getElem?_eq_some.mp hi
    obtain ⟨sti, evs, he, ht, hidx, ds, hds⟩ :=
      loadLayers_reach env i pairs idx rootFS st (le_of_lt hilen) hver
    have hdrop : pairs.drop i = (path, diffID) :: pairs.drop (i + 1) := by
      rw [List.drop_eq_getElem_cons hilen, heq]
    rw [he, hdrop]
    simp only [loadLayers, hget]
    by_cases hd : diffID = ldiff
    · simp only [if_pos hd]
      obtain ⟨evs2, h1, h2, h3, _⟩ := loadLayers_shape env (pairs.drop (i + 1)) (idx + i + 1)
        ((rootFS ++ (pairs.map Prod.snd).take i) ++ [diffID])
        { sti with
          trace := sti.trace ++ [.getLayer (idx + i)
            (chainID env.hash ((rootFS ++ (pairs.map Prod.snd).take i) ++ [diffID])) (some ldiff)],
          deferred := ldiff :: sti.deferred }
      refine ⟨?_, ?_, ?_⟩
      · intro p2 d2 hmem
        rw [h1] at hmem
        simp only [ht, List.append_assoc, List.mem_append, List.mem_cons,
          List.mem_singleton] at hmem
        rcases hmem with hmem | hmem | hmem | hmem
        · exact hmem
        · obtain ⟨n, hn, hlt2⟩ := hidx _ hmem
          simp [layerEventIdx] at hn
          omega
        · exact absurd hmem (by simp)
        · obtain ⟨n, hn, hge⟩ := h2 _ hmem
          simp [layerEventIdx] at hn
          omega
      · rw [h1]
        simp
      · rw [h3]
        simp
    · simp only [if_neg hd]
      refine ⟨?_, ?_, ?_⟩
      · intro p2 d2 hmem
        simp only [ht, List.append_assoc, List.mem_append, List.mem_cons,
          List.mem_singleton] at hmem
        rcases hmem with hmem | hmem | hmem
        · exact hmem
        · obtain ⟨n, hn, hlt2⟩ := hidx _ hmem
          simp [layerEventIdx] at hn
          omega
        · exact absurd hmem (by simp)
      · simp
      · simp
  · intro env manifest st r h dd hdd
    unfold loadRun
    rw [h]
    simp only [List.mem_append]
    right
    exact List.mem_map_of_mem Event.releaseLayer hdd

/-- Witness for C8: with chain `sha256:d0` already in the store, the one-layer
item records a successful lookup, makes no registration, holds the reference,
and the reference is released at `Load` exit. -/
theorem chain_hit_no_register_witness :
    envC8.lsGet "sha256:d0" = some "sha256:d0" ∧
    ((∀ p2 d2, Event.registerLayer 0 p2 d2
          ∈ (loadLayers envC8 0 [("l0", "sha256:d0")] [] initState).1.trace
        → Event.registerLayer 0 p2 d2 ∈ initState.trace)
      ∧ "sha256:d0" ∈ (loadLayers envC8 0 [("l0", "sha256:d0")] [] initState).1.deferred)
    ∧ Event.releaseLayer "sha256:d0" ∈ (loadRun envC8 [⟨"cfg0", ["l0"], [], ""⟩]).1 := by
  refine ⟨by decide, ?_, ?_⟩
  · have h := chain_hit_no_register.1 envC8 0 [("l0", "sha256:d0")] [] initState 0
      "l0" "sha256:d0" "sha256:d0" (by decide)
      (fun j hj => absurd hj (Nat.not_lt_zero j)) (by decide)
    exact ⟨fun p2 d2 hm => h.1 p2 d2 hm, h.2.2⟩
  · exact chain_hit_no_register.2 envC8 [⟨"cfg0", ["l0"], [], ""⟩] _ _ rfl
      "sha256:d0" (by decide)

/-- A successfully processed item leaves `imageRefCount` equal to its tag
count: the counter is reset to zero after image creation and bumped once per
repo tag. -/
lemma loadItem_ok_refCount (env : LoadEnv) (m : ManifestItem) (st st2 : LoadState)
    (h : loadItem env m st = (st2, none)) :
    st2.imageRefCount = m.repoTags.length := by
  cases hc : env.readConfig m.config with
  | none =>
    simp only [loadItem, hc, Prod.mk.injEq] at h
    exact absurd h.2 (Option.some_ne_none _)
  | some cfg =>
    by_cases hl : m.layers.length ≠ cfg.diffIDs.length
    · simp only [loadItem, hc, if_pos hl, Prod.mk.injEq] at h
      exact absurd h.2 (Option.some_ne_none _)
    · rcases hL : loadLayers env 0 (m.layers.zip cfg.diffIDs) [] st with ⟨st1, r⟩
      cases r with
      | some e =>
        simp only [loadItem, hc, if_neg hl, hL, Prod.mk.injEq] at h
        exact absurd h.2 (Option.some_ne_none _)
      | none =>
        cases hcr : env.create m.config with
        | none =>
          simp only [loadItem, hc, if_neg hl, hL, hcr, Prod.mk.injEq] at h
          exact absurd h.2 (Option.some_ne_none _)
        | some imgID =>
          simp only [loadItem, hc, if_neg hl, hL, hcr, Prod.mk.injEq, and_true] at h
          subst h
          obtain ⟨evs, _, _, _, _, h5, _⟩ := setTags_shape env imgID m.repoTags
            { st1 with
              trace := st1.trace ++ [.createImage m.config imgID],
              imageIDsStr := st1.imageIDsStr ++ "Loaded image ID: " ++ imgID ++ "\n",
              imageRefCount := 0 }
          have hrc : ({ setTags env imgID m.repoTags
              { st1 with
                trace := st1.trace ++ [.createImage m.config imgID],
                imageIDsStr := st1.imageIDsStr ++ "Loaded image ID: " ++ imgID ++ "\n",
                imageRefCount := 0 } with
              parentLinks := (setTags env imgID m.repoTags
                { st1 with
                  trace := st1.trace ++ [.createImage m.config imgID],
                  imageIDsStr := st1.imageIDsStr ++ "Loaded image ID: " ++ imgID ++ "\n",
                  imageRefCount := 0 }).parentLinks ++ [⟨imgID, m.parent⟩] } :
              LoadState).imageRefCount
              = (setTags env imgID m.repoTags
                { st1 with
                  trace := st1.trace ++ [.createImage m.config imgID],
                  imageIDsStr := st1.imageIDsStr ++ "Loaded image ID: " ++ imgID ++ "\n",
                  imageRefCount := 0 }).imageRefCount := rfl
          rw [hrc, h5]
          simp

/-- A successful batch leaves `imageRefCount` at the LAST item's tag count
(the counter is reset per item), or unchanged for an empty batch. -/
lemma loadItems_ok_refCount (env : LoadEnv) :
    ∀ (ms : List ManifestItem) (st st2 : LoadState),
      loadItems env ms st = (st2, none) →
      st2.imageRefCount = ms.getLast?.elim st.imageRefCount (fun m => m.repoTags.length) := by
  intro ms
  induction ms with
  | nil =>
    intro st st2 h
    simp only [loadItems, Prod.mk.injEq] at h
    rw [← h.1]
    rfl
  | cons m rest ih =>
    intro st st2 h
    rcases hm : loadItem env m st with ⟨st1, r⟩
    cases r with
    | some e =>
      simp only [loadItems, hm, Prod.mk.injEq] at h
      exact absurd h.2 (Option.some_ne_none _)
    | none =>
      simp only [loadItems, hm] at h
      cases rest with
      | nil =>
        simp only [loadItems, Prod.mk.injEq] at h
        rw [← h.1]
        simpa using loadItem_ok_refCount env m st st1 hm
      | cons m2 rest2 =>
        rw [ih st1 st2 h]
        have hne : (m2 :: rest2).getLast? ≠ none := by
          simp [List.getLast?_eq_none_iff]
        cases hl : (m2 :: rest2).getLast? with
        | none => exact absurd hl hne
        | some l =>
          rw [List.getLast?_cons_cons, hl]
          rfl

/-- `setParentID` never touches the tag counter, the accumulated line string
or the defer stack. -/
lemma setParentID_preserve (env : LoadEnv) (cid pid : String) (st : LoadState) :
    (setParentID env cid pid st).1.imageRefCount = st.imageRefCount
    ∧ (setParentID env cid pid st).1.imageIDsStr = st.imageIDsStr
    ∧ (setParentID env cid pid st).1.deferred = st.deferred := by
  unfold setParentID
  cases env.isGet cid with
  | none => exact ⟨rfl, rfl, rfl⟩
  | some img =>
    cases env.isGet pid with
    | none => exact ⟨rfl, rfl, rfl⟩
    | some parent =>
      by_cases h : checkValidParent img parent <;> simp [h]

/-- The parent-commit loop never touches the tag counter, the accumulated line
string or the defer stack. -/
lemma commitParents_preserve (env : LoadEnv) :
    ∀ (links : List ParentLink) (st : LoadState),
      (commitParents env links st).1.imageRefCount = st.imageRefCount
      ∧ (commitParents env links st).1.imageIDsStr = st.imageIDsStr
      ∧ (commitParents env links st).1.deferred = st.deferred := by
  intro links
  induction links with
  | nil => intro st; exact ⟨rfl, rfl, rfl⟩
  | cons p ps ih =>
    intro st
    simp only [commitParents]
    by_cases hp : p.parentID ≠ ""
    · rw [if_pos hp]
      rcases hs : setParentID env p.id p.parentID st with ⟨st1, r⟩
      have hpres := setParentID_preserve env p.id p.parentID st
      rw [hs] at hpres
      cases r with
      | some e => exact hpres
      | none =>
        obtain ⟨h1, h2, h3⟩ := ih st1
        exact ⟨h1.trans hpres.1, h2.trans hpres.2.1, h3.trans hpres.2.2⟩
    · rw [if_neg hp]
      exact ih st

/-- C4 counterexample: in a two-item batch where the first image gets a repo
tag and the second gets none, the load succeeds, a tag IS set during the
batch, and the accumulated "Loaded image ID" lines are nevertheless written at
the end — refuting "emitted if and only if no tag was set for any image across
the whole batch". -/
theorem batch_lines_emitted_despite_tag :
    (Load envC4 [⟨"cfg1", ["l1"], ["repo:tag"], ""⟩, ⟨"cfg2", ["l2"], [], ""⟩]).2 = none
    ∧ Event.setTag "repo:tag" "img1"
        ∈ (Load envC4 [⟨"cfg1", ["l1"], ["repo:tag"], ""⟩, ⟨"cfg2", ["l2"], [], ""⟩]).1.trace
    ∧ Event.writeOut "Loaded image ID: img1\nLoaded image ID: img2\n"
        ∈ (Load envC4 [⟨"cfg1", ["l1"], ["repo:tag"], ""⟩, ⟨"cfg2", ["l2"], [], ""⟩]).1.trace := by
  decide

/-- C4 amended: at the end of a successful manifest batch, `imageRefCount`
holds the tag count of the LAST manifest item only (the counter is reset per
item), so the accumulated "Loaded image ID" lines are written if and only if
the last manifest item has no repo tags (vacuously, for an empty manifest). -/
theorem batch_lines_emitted_iff_last_item_untagged (env : LoadEnv)
    (manifest : List ManifestItem) (st : LoadState)
    (h : loadCore env manifest = (st, none)) :
    st.imageRefCount = manifest.getLast?.elim 0 (fun m => m.repoTags.length)
    ∧ Load env manifest =
        (if manifest.getLast?.elim true (fun m => m.repoTags.isEmpty) then
          ({ st with trace := st.trace ++ [Event.writeOut st.imageIDsStr] }, none)
        else (st, none)) := by
  have hrc : st.imageRefCount = manifest.getLast?.elim 0 (fun m => m.repoTags.length) := by
    unfold loadCore at h
    rcases hI : loadItems env manifest initState with ⟨st1, r⟩
    rw [hI] at h
    cases r with
    | some e => exact absurd (congrArg Prod.snd h) (by simp)
    | none =>
      have h2 : commitParents env (validatedParentLinks st1.parentLinks) st1 = (st, none) := h
      have hpres := commitParents_preserve env (validatedParentLinks st1.parentLinks) st1
      rw [h2] at hpres
      rw [hpres.1]
      have := loadItems_ok_refCount env manifest initState st1 hI
      simpa [initState] using this
  refine ⟨hrc, ?_⟩
  simp only [Load, h]
  cases hml : manifest.getLast? with
  | none =>
    rw [hml] at hrc
    simp only [Option.elim] at hrc
    rw [if_pos hrc]
    rfl
  | some m =>
    rw [hml] at hrc
    simp only [Option.elim] at hrc
    by_cases hz : m.repoTags.length = 0
    · rw [if_pos (by omega : st.imageRefCount = 0)]
      have : m.repoTags.isEmpty = true := by
        rw [List.isEmpty_iff_length_eq_zero]
        exact hz
      simp [Option.elim, this]
    · rw [if_neg (by omega : ¬ st.imageRefCount = 0)]
      have : m.repoTags.isEmpty = false := by
        rw [List.isEmpty_eq_false_iff_exists_mem]
        cases hrt : m.repoTags with
        | nil => rw [hrt] at hz; simp at hz
        | cons t ts => exact ⟨t, by simp⟩
      simp [Option.elim, this]

/-- Witness for the amended C4 on the concrete two-item batch of `envC4`. -/
theorem batch_lines_amended_witness :
    ∃ st, loadCore envC4 [⟨"cfg1", ["l1"], ["repo:tag"], ""⟩, ⟨"cfg2", ["l2"], [], ""⟩]
        = (st, none)
      ∧ (st.imageRefCount
          = ([⟨"cfg1", ["l1"], ["repo:tag"], ""⟩,
              (⟨"cfg2", ["l2"], [], ""⟩ : ManifestItem)].getLast?.elim 0
              (fun m => m.repoTags.length))
        ∧ Load envC4 [⟨"cfg1", ["l1"], ["repo:tag"], ""⟩, ⟨"cfg2", ["l2"], [], ""⟩] =
            (if ([⟨"cfg1", ["l1"], ["repo:tag"], ""⟩,
                (⟨"cfg2", ["l2"], [], ""⟩ : ManifestItem)].getLast?.elim true
                (fun m => m.repoTags.isEmpty)) then
              ({ st with trace := st.trace ++ [Event.writeOut st.imageIDsStr] }, none)
            else (st, none))) := by
  have h : loadCore envC4 [⟨"cfg1", ["l1"], ["repo:tag"], ""⟩, ⟨"cfg2", ["l2"], [], ""⟩]
      = ((loadCore envC4 [⟨"cfg1", ["l1"], ["repo:tag"], ""⟩, ⟨"cfg2", ["l2"], [], ""⟩]).1,
        none) := by
    decide
  exact ⟨_, h, batch_lines_emitted_iff_last_item_untagged envC4 _ _ h⟩

/-- `legacyFinish` never exhausts fuel: every branch is a success or an error. -/
lemma legacyFinish_ne_spin (env : LegacyEnv) (oldID js parentID : String) (st : LegacyState) :
    (legacyFinish env oldID js parentID st).2 ≠ LegacyRes.spin := by
  unfold legacyFinish
  repeat' split
  all_goals simp

/-- A successful `legacyFinish` records the legacy id in the map. -/
lemma legacyFinish_ok_mapped (env : LegacyEnv) (oldID js parentID : String)
    (st st2 : LegacyState) (h : legacyFinish env oldID js parentID st = (st2, LegacyRes.ok)) :
    (st2.loadedMap.lookup oldID).isSome := by
  unfold legacyFinish at h
  repeat' split at h
  all_goals simp at h
  all_goals subst h
  all_goals simp [List.lookup]

/-- A successful `legacyLoadImage` leaves the legacy id in the map. -/
lemma legacyLoadImage_ok_mapped (env : LegacyEnv) (fuel : Nat) (oldID : String)
    (st st2 : LegacyState) (h : legacyLoadImage env fuel oldID st = (st2, LegacyRes.ok)) :
    (st2.loadedMap.lookup oldID).isSome := by
  cases fuel with
  | zero =>
    exact absurd (congrArg Prod.snd h) (by simp [legacyLoadImage])
  | succ f =>
    unfold legacyLoadImage at h
    by_cases hm : (st.loadedMap.lookup oldID).isSome
    · rw [if_pos hm] at h
      simp only [Prod.mk.injEq] at h
      rw [← h.1]
      exact hm
    · rw [if_neg hm] at h
      cases hj : env.imageJSON oldID with
      | none =>
        rw [hj] at h
        simp only [Prod.mk.injEq] at h
        exact absurd h.2 (by simp)
      | some js =>
        rw [hj] at h
        simp only [Option.some.injEq] at h
        cases hp : env.parseParent js with
        | none =>
          rw [hp] at h
          simp only [Prod.mk.injEq] at h
          exact absurd h.2 (by simp)
        | some par =>
          rw [hp] at h
          simp only [Option.some.injEq] at h
          by_cases hpar : par ≠ ""
          · rw [if_pos hpar] at h
            rcases hPL : parentLoop env f par st with ⟨st3, r⟩
            rw [hPL] at h
            cases r with
            | spin =>
              simp only [Prod.mk.injEq] at h
              exact absurd h.2 (by simp)
            | err m =>
              simp only [Prod.mk.injEq] at h
              exact absurd h.2 (by simp)
            | ok parentID =>
              exact legacyFinish_ok_mapped env oldID js parentID st3 st2 h
          · rw [if_neg hpar] at h
            exact legacyFinish_ok_mapped env oldID js "" st st2 h

/-- C5 counterexample: the legacy archive of `envC5`, whose embedded parent
pointers form a cycle (`A` is its own parent), makes `legacyLoadImage` exhaust
every fuel budget — the recursive parent resolution loops forever, so the map
is not a cycle guard. -/
theorem legacy_cycle_diverges : legacyDiverges envC5 "A" := by
  have key : ∀ fuel,
      (∀ st : LegacyState, st.loadedMap.lookup "A" = none →
        (legacyLoadImage envC5 fuel "A" st).2 = LegacyRes.spin)
      ∧ (∀ st : LegacyState, st.loadedMap.lookup "A" = none →
        (parentLoop envC5 fuel "A" st).2 = PRes.spin) := by
    intro fuel
    induction fuel with
    | zero => exact ⟨fun st _ => rfl, fun st _ => rfl⟩
    | succ f ih =>
      constructor
      · intro st hst
        have hjs : envC5.imageJSON "A" = some "jsA" := by simp [envC5]
        have hpp : envC5.parseParent "jsA" = some "A" := by simp [envC5]
        simp only [legacyLoadImage, hst, Option.isSome_none, Bool.false_eq_true,
          if_false, hjs, hpp]
        rw [if_pos (by decide : ("A" : String) ≠ "")]
        rcases hPL : parentLoop envC5 f "A" st with ⟨st2, r⟩
        have := ih.2 st hst
        rw [hPL] at this
        simp only at this
        subst this
        simp
      · intro st hst
        simp only [parentLoop, hst]
        rcases hL : legacyLoadImage envC5 f "A" st with ⟨st2, r⟩
        have := ih.1 st hst
        rw [hL] at this
        simp only at this
        subst this
        simp
  intro fuel
  exact (key fuel).1 ⟨[], []⟩ rfl

/-- C5 amended: the legacy-ID map is a memoization cache — loading an
already-resolved legacy ID returns immediately with no further effect — and
the recursive parent resolution terminates whenever the archive's parent
pointers are acyclic (witnessed by a rank that decreases along parent edges).
The map is, however, NOT a cycle guard: parent-pointer cycles make the
recursion exhaust every fuel budget (see `legacy_cycle_diverges`). -/
theorem legacy_memo_and_acyclic_termination :
    (∀ (env : LegacyEnv) (fuel : Nat) (oldID : String) (st : LegacyState),
      (st.loadedMap.lookup oldID).isSome →
      legacyLoadImage env (fuel + 1) oldID st = (st, LegacyRes.ok))
    ∧ (∀ (env : LegacyEnv) (rank : String → Nat),
      (∀ id2 js p, env.imageJSON id2 = some js → env.parseParent js = some p → p ≠ "" →
        rank p < rank id2) →
      ∀ (fuel : Nat) (oldID : String) (st : LegacyState), 2 * rank oldID + 1 ≤ fuel →
        (legacyLoadImage env fuel oldID st).2 ≠ LegacyRes.spin) := by
  constructor
  · intro env fuel oldID st h
    simp [legacyLoadImage, h]
  · intro env rank hr
    have key : ∀ (fuel : Nat),
        (∀ (oldID : String) (st : LegacyState), 2 * rank oldID + 1 ≤ fuel →
          (legacyLoadImage env fuel oldID st).2 ≠ LegacyRes.spin)
        ∧ (∀ (p : String) (st : LegacyState), 2 * rank p + 2 ≤ fuel →
          (parentLoop env fuel p st).2 ≠ PRes.spin) := by
      intro fuel
      induction fuel using Nat.strong_induction_on with
      | _ fuel ih =>
        constructor
        · intro oldID st hf
          cases fuel with
          | zero => omega
          | succ f =>
            by_cases hm : (st.loadedMap.lookup oldID).isSome
            · simp [legacyLoadImage, hm]
            · cases hj : env.imageJSON oldID with
              | none => simp [legacyLoadImage, if_neg hm, hj]
              | some js =>
                cases hp : env.parseParent js with
                | none => simp [legacyLoadImage, if_neg hm, hj, hp]
                | some par =>
                  by_cases hpar : par ≠ ""
                  · simp only [legacyLoadImage, if_neg hm, hj, hp, if_pos hpar]
                    rcases hPL : parentLoop env f par st with ⟨st2, r⟩
                    have hrank : rank par < rank oldID := hr oldID js par hj hp hpar
                    have hB := (ih f (by omega)).2 par st (by omega)
                    rw [hPL] at hB
                    cases r with
                    | spin => exact absurd rfl hB
                    | err m => simp
                    | ok parentID => exact legacyFinish_ne_spin env oldID js parentID st2
                  · simp only [legacyLoadImage, if_neg hm, hj, hp, if_neg hpar]
                    exact legacyFinish_ne_spin env oldID js "" st
        · intro p st hf
          cases fuel with
          | zero => omega
          | succ f =>
            cases hl : st.loadedMap.lookup p with
            | some pid => simp [parentLoop, hl]
            | none =>
              rcases hL : legacyLoadImage env f p st with ⟨st2, r⟩
              have hA := (ih f (by omega)).1 p st (by omega)
              rw [hL] at hA
              simp only [parentLoop, hl, hL]
              cases r with
              | spin => exact absurd rfl hA
              | err m => simp
              | ok =>
                have hmap := legacyLoadImage_ok_mapped env f p st st2 hL
                cases f with
                | zero => exact absurd (congrArg Prod.snd hL) (by simp [legacyLoadImage])
                | succ f2 =>
                  cases hl2 : st2.loadedMap.lookup p with
                  | some pid => simp [parentLoop, hl2]
                  | none => rw [hl2] at hmap; simp at hmap
    intro fuel oldID st hf
    exact (key fuel).1 oldID st hf

/-- Witness for the amended C5: an already-resolved id returns immediately on
the cyclic fixture, and the acyclic two-image archive of `envC5W` terminates
under the rank `A ↦ 1, _ ↦ 0`. -/
theorem legacy_memo_and_acyclic_termination_witness :
    ((⟨[("A", "imgA")], []⟩ : LegacyState).loadedMap.lookup "A").isSome = true
    ∧ legacyLoadImage envC5 5 "A" ⟨[("A", "imgA")], []⟩
        = (⟨[("A", "imgA")], []⟩, LegacyRes.ok)
    ∧ (legacyLoadImage envC5W 5 "A" ⟨[], []⟩).2 ≠ LegacyRes.spin := by
  refine ⟨by decide, ?_, ?_⟩
  · exact legacy_memo_and_acyclic_termination.1 envC5 4 "A" ⟨[("A", "imgA")], []⟩ (by decide)
  · refine legacy_memo_and_acyclic_termination.2 envC5W
      (fun s => if s = "A" then 1 else 0) ?_ 5 "A" ⟨[], []⟩ (by decide)
    intro id2 js p hjson hparse hpne
    by_cases hA : id2 = "A"
    · subst hA
      simp [envC5W] at hjson
      subst hjson
      simp [envC5W] at hparse
      subst hparse
      decide
    · by_cases hB : id2 = "B"
      · subst hB
        simp [envC5W, hA] at hjson
        subst hjson
        simp [envC5W] at hparse
        subst hparse
        exact absurd rfl hpne
      · simp [envC5W, hA, hB] at hjson

/-- Events that acquire nothing contribute nothing to the acquisition list. -/
lemma filterMap_acquired_nil (evs : List Event) (h : ∀ e ∈ evs, acquiredDiff e = none) :
    evs.filterMap acquiredDiff = [] := by
  rw [List.filterMap_eq_nil_iff]
  exact h

/-- One manifest item grows the trace by some events and the defer stack by
exactly the references those events acquire, on success and error alike. -/
lemma loadItem_acq (env : LoadEnv) (m : ManifestItem) (st : LoadState) :
    ∃ evs, (loadItem env m st).1.trace = st.trace ++ evs
      ∧ (loadItem env m st).1.deferred = (evs.filterMap acquiredDiff).reverse ++ st.deferred := by
  cases hc : env.readConfig m.config with
  | none => exact ⟨[], by simp [loadItem, hc], by simp [loadItem, hc]⟩
  | some cfg =>
    by_cases hl : m.layers.length ≠ cfg.diffIDs.length
    · exact ⟨[], by simp [loadItem, hc, if_pos hl], by simp [loadItem, hc, if_pos hl]⟩
    · obtain ⟨evsL, h1, h2, h3, h4, h5, h6⟩ := loadLayers_shape env (m.layers.zip cfg.diffIDs) 0 [] st
      rcases hL : loadLayers env 0 (m.layers.zip cfg.diffIDs) [] st with ⟨st1, r⟩
      rw [hL] at h1 h3
      cases r with
      | some e =>
        exact ⟨evsL, by simp only [loadItem, hc, if_neg hl, hL]; exact h1,
          by simp only [loadItem, hc, if_neg hl, hL]; exact h3⟩
      | none =>
        cases hcr : env.create m.config with
        | none =>
          exact ⟨evsL, by simp only [loadItem, hc, if_neg hl, hL, hcr]; exact h1,
            by simp only [loadItem, hc, if_neg hl, hL, hcr]; exact h3⟩
        | some imgID =>
          obtain ⟨evsT, t1, t2, t3, t4, t5, t6⟩ := setTags_shape env imgID m.repoTags
            { st1 with
              trace := st1.trace ++ [.createImage m.config imgID],
              imageIDsStr := st1.imageIDsStr ++ "Loaded image ID: " ++ imgID ++ "\n",
              imageRefCount := 0 }
          refine ⟨evsL ++ [Event.createImage m.config imgID] ++ evsT, ?_, ?_⟩
          · simp only [loadItem, hc, if_neg hl, hL, hcr]
            show (setTags env imgID m.repoTags _).trace = _
            rw [t1, h1]
            simp
          · simp only [loadItem, hc, if_neg hl, hL, hcr]
            show (setTags env imgID m.repoTags _).deferred = _
            rw [t3]
            show st1.deferred = _
            rw [h3]
            rw [List.filterMap_append, List.filterMap_append]
            rw [filterMap_acquired_nil evsT (fun e he => (t2 e he).2.2)]
            simp [acquiredDiff]

/-- The whole manifest loop grows the trace by some events and the defer stack
by exactly the references those events acquire. -/
lemma loadItems_acq (env : LoadEnv) :
    ∀ (ms : List ManifestItem) (st : LoadState),
      ∃ evs, (loadItems env ms st).1.trace = st.trace ++ evs
        ∧ (loadItems env ms st).1.deferred
            = (evs.filterMap acquiredDiff).reverse ++ st.deferred := by
  intro ms
  induction ms with
  | nil => intro st; exact ⟨[], by simp [loadItems], by simp [loadItems]⟩
  | cons m rest ih =>
    intro st
    obtain ⟨evs1, h1, h2⟩ := loadItem_acq env m st
    rcases hm : loadItem env m st with ⟨st1, r⟩
    rw [hm] at h1 h2
    cases r with
    | some e =>
      exact ⟨evs1, by simp only [loadItems, hm]; exact h1,
        by simp only [loadItems, hm]; exact h2⟩
    | none =>
      obtain ⟨evs2, g1, g2⟩ := ih st1
      refine ⟨evs1 ++ evs2, ?_, ?_⟩
      · simp only [loadItems, hm]
        rw [g1]
        show st1.trace ++ evs2 = _
        rw [h1]
        simp
      · simp only [loadItems, hm]
        rw [g2]
        show (evs2.filterMap acquiredDiff).reverse ++ st1.deferred = _
        rw [h2, List.filterMap_append]
        simp

/-- The parent-commit loop grows the trace only by events that acquire no
layer reference. -/
lemma commitParents_trace (env : LoadEnv) :
    ∀ (links : List ParentLink) (st : LoadState),
      ∃ evs, (commitParents env links st).1.trace = st.trace ++ evs
        ∧ ∀ e ∈ evs, acquiredDiff e = none := by
  intro links
  induction links with
  | nil => intro st; exact ⟨[], by simp [commitParents], by simp⟩
  | cons p ps ih =>
    intro st
    simp only [commitParents]
    by_cases hp : p.parentID ≠ ""
    · rw [if_pos hp]
      rcases hs : setParentID env p.id p.parentID st with ⟨st1, r⟩
      have hsp : ∃ evs0, st1.trace = st.trace ++ evs0 ∧ ∀ e ∈ evs0, acquiredDiff e = none := by
        unfold setParentID at hs
        cases hg1 : env.isGet p.id with
        | none =>
          rw [hg1] at hs
          simp only [Prod.mk.injEq] at hs
          exact ⟨[], by rw [← hs.1]; simp, by simp⟩
        | some img =>
          rw [hg1] at hs
          cases hg2 : env.isGet p.parentID with
          | none =>
            rw [hg2] at hs
            simp only [Prod.mk.injEq] at hs
            exact ⟨[], by rw [← hs.1]; simp, by simp⟩
          | some parent =>
            rw [hg2] at hs
            by_cases hv : checkValidParent img parent
            · simp only [if_pos hv, Prod.mk.injEq] at hs
              exact ⟨[Event.setParent p.id p.parentID], by rw [← hs.1],
                by simp [acquiredDiff]⟩
            · simp only [if_neg hv, Prod.mk.injEq] at hs
              exact ⟨[], by rw [← hs.1]; simp, by simp⟩
      obtain ⟨evs0, e1, e2⟩ := hsp
      cases r with
      | some e => exact ⟨evs0, e1, e2⟩
      | none =>
        obtain ⟨evs2, g1, g2⟩ := ih st1
        refine ⟨evs0 ++ evs2, ?_, ?_⟩
        · rw [g1, e1]
          simp
        · intro e he
          rcases List.mem_append.mp he with he | he
          · exact e2 e he
          · exact g2 e he
    · rw [if_neg hp]
      exact ih st

/-- At every exit of `Load`, the defer stack is exactly the reverse of the
acquisitions recorded in the trace. -/
lemma Load_deferred_eq (env : LoadEnv) (manifest : List ManifestItem) (st : LoadState)
    (r : Option String) (h : Load env manifest = (st, r)) :
    st.deferred = (st.trace.filterMap acquiredDiff).reverse := by
  obtain ⟨evs, h1, h2⟩ := loadItems_acq env manifest initState
  rcases hI : loadItems env manifest initState with ⟨st0, r0⟩
  rw [hI] at h1 h2
  have hinv0 : st0.deferred = (st0.trace.filterMap acquiredDiff).reverse := by
    show (st0, r0).1.deferred = _
    rw [h2, h1]
    show _ = ((initState.trace ++ evs).filterMap acquiredDiff).reverse
    simp [initState]
  cases r0 with
  | some e =>
    have hload : Load env manifest = (st0, some e) := by
      simp only [Load, loadCore, hI]
    rw [hload] at h
    simp only [Prod.mk.injEq] at h
    rw [← h.1]
    exact hinv0
  | none =>
    obtain ⟨evs2, g1, g2⟩ := commitParents_trace env (validatedParentLinks st0.parentLinks) st0
    have hdef := (commitParents_preserve env (validatedParentLinks st0.parentLinks) st0).2.2
    rcases hC : commitParents env (validatedParentLinks st0.parentLinks) st0 with ⟨st1, r1⟩
    rw [hC] at g1 hdef
    have hinv1 : st1.deferred = (st1.trace.filterMap acquiredDiff).reverse := by
      show (st1, r1).1.deferred = _
      rw [hdef, hinv0]
      show _ = (((st1, r1).1.trace).filterMap acquiredDiff).reverse
      rw [g1, List.filterMap_append, filterMap_acquired_nil evs2 g2, List.append_nil]
    have hcore : loadCore env manifest = (st1, r1) := by
      simp only [loadCore, hI]
      exact hC
    cases r1 with
    | some e =>
      have hload : Load env manifest = (st1, some e) := by
        simp only [Load, hcore]
      rw [hload] at h
      simp only [Prod.mk.injEq] at h
      rw [← h.1]
      exact hinv1
    | none =>
      have hload : Load env manifest
          = (if st1.imageRefCount = 0 then
              ({ st1 with trace := st1.trace ++ [Event.writeOut st1.imageIDsStr] }, none)
            else (st1, none)) := by
        simp only [Load, hcore]
      rw [hload] at h
      by_cases hz : st1.imageRefCount = 0
      · rw [if_pos hz] at h
        simp only [Prod.mk.injEq] at h
        rw [← h.1]
        show st1.deferred = _
        rw [hinv1]
        rw [show ({ st1 with trace := st1.trace ++ [Event.writeOut st1.imageIDsStr] }
            : LoadState).trace = st1.trace ++ [Event.writeOut st1.imageIDsStr] from rfl]
        rw [List.filterMap_append, filterMap_acquired_nil [Event.writeOut st1.imageIDsStr]
          (by simp [acquiredDiff]), List.append_nil]
      · rw [if_neg hz] at h
        simp only [Prod.mk.injEq] at h
        rw [← h.1]
        exact hinv1

/-- `legacyFinish` grows the trace by events whose registered and released
DiffIDs balance exactly on success (register, create, release, and possibly
set-parent). -/
lemma legacyFinish_balance (env : LegacyEnv) (oldID js parentID : String) (st : LegacyState) :
    ∃ evs, (legacyFinish env oldID js parentID st).1.trace = st.trace ++ evs
      ∧ ((legacyFinish env oldID js parentID st).2 = LegacyRes.ok →
        evs.filterMap registeredDiff = evs.filterMap releasedDiff) := by
  cases hg : (if parentID ≠ "" then (env.isGet parentID).map (fun p => (p.diffIDs, p.history))
      else some ([], [])) with
  | none => exact ⟨[], by simp [legacyFinish, hg], by simp [legacyFinish, hg]⟩
  | some pr =>
    obtain ⟨rootFS0, history0⟩ := pr
    cases hr : env.register oldID with
    | none => exact ⟨[], by simp [legacyFinish, hg, hr], by simp [legacyFinish, hg, hr]⟩
    | some diff =>
      cases hh : env.historyFromConfig js with
      | none =>
        exact ⟨[LEvent.register oldID diff], by simp [legacyFinish, hg, hr, hh],
          by simp [legacyFinish, hg, hr, hh]⟩
      | some h =>
        cases hmk : env.makeConfig js (rootFS0 ++ [diff]) (history0 ++ [h]) with
        | none =>
          exact ⟨[LEvent.register oldID diff], by simp [legacyFinish, hg, hr, hh, hmk],
            by simp [legacyFinish, hg, hr, hh, hmk]⟩
        | some config =>
          cases hc : env.isCreate config with
          | none =>
            exact ⟨[LEvent.register oldID diff], by simp [legacyFinish, hg, hr, hh, hmk, hc],
              by simp [legacyFinish, hg, hr, hh, hmk, hc]⟩
          | some imgID =>
            by_cases hrel : env.releaseOk diff
            · by_cases hpar : parentID ≠ ""
              · have hg2 : (env.isGet parentID).map (fun p => (p.diffIDs, p.history))
                    = some (rootFS0, history0) := by
                  rw [if_pos hpar] at hg
                  exact hg
                by_cases hsp : env.setParentOk imgID parentID
                · exact ⟨[LEvent.register oldID diff, LEvent.create config imgID,
                    LEvent.release diff, LEvent.setParent imgID parentID],
                    by simp [legacyFinish, hg2, hr, hh, hmk, hc, hrel, hpar, hsp],
                    fun _ => rfl⟩
                · exact ⟨[LEvent.register oldID diff, LEvent.create config imgID,
                    LEvent.release diff, LEvent.setParent imgID parentID],
                    by simp [legacyFinish, hg2, hr, hh, hmk, hc, hrel, hpar, hsp],
                    fun _ => rfl⟩
              · rw [if_neg hpar] at hg
                simp only [Option.some.injEq, Prod.mk.injEq] at hg
                obtain ⟨h1, h2⟩ := hg
                subst h1
                subst h2
                simp only [List.nil_append] at hmk
                exact ⟨[LEvent.register oldID diff, LEvent.create config imgID,
                  LEvent.release diff],
                  by simp [legacyFinish, hr, hh, hmk, hc, hrel, hpar],
                  fun _ => rfl⟩
            · exact ⟨[LEvent.register oldID diff, LEvent.create config imgID,
                LEvent.release diff],
                by simp [legacyFinish, hg, hr, hh, hmk, hc, hrel],
                fun _ => rfl⟩

/-- Legacy loads only append to the trace, and on success every registered
layer reference has a matching release in the appended events. -/
lemma legacy_ok_balance (env : LegacyEnv) :
    ∀ (fuel : Nat),
      (∀ (oldID : String) (st st2 : LegacyState) (r : LegacyRes),
        legacyLoadImage env fuel oldID st = (st2, r) →
        ∃ evs, st2.trace = st.trace ++ evs ∧ (r = LegacyRes.ok →
          evs.filterMap registeredDiff = evs.filterMap releasedDiff))
      ∧ (∀ (p : String) (st st2 : LegacyState) (r : PRes),
        parentLoop env fuel p st = (st2, r) →
        ∃ evs, st2.trace = st.trace ++ evs ∧ (∀ pid, r = PRes.ok pid →
          evs.filterMap registeredDiff = evs.filterMap releasedDiff)) := by
  intro fuel
  induction fuel with
  | zero =>
    constructor
    · intro oldID st st2 r h
      simp only [legacyLoadImage, Prod.mk.injEq] at h
      obtain ⟨h1, h2⟩ := h
      subst h1
      exact ⟨[], by simp, fun hok => by rw [← h2] at hok; cases hok⟩
    · intro p st st2 r h
      simp only [parentLoop, Prod.mk.injEq] at h
      obtain ⟨h1, h2⟩ := h
      subst h1
      exact ⟨[], by simp, fun pid hok => by rw [← h2] at hok; cases hok⟩
  | succ f ih =>
    constructor
    · intro oldID st st2 r h
      by_cases hm : (st.loadedMap.lookup oldID).isSome
      · simp only [legacyLoadImage, if_pos hm, Prod.mk.injEq] at h
        obtain ⟨h1, _⟩ := h
        subst h1
        exact ⟨[], by simp, fun _ => rfl⟩
      · cases hj : env.imageJSON oldID with
        | none =>
          simp only [legacyLoadImage, if_neg hm, hj, Prod.mk.injEq] at h
          obtain ⟨h1, h2⟩ := h
          subst h1
          exact ⟨[], by simp, fun hok => by rw [← h2] at hok; cases hok⟩
        | some js =>
          cases hp : env.parseParent js with
          | none =>
            simp only [legacyLoadImage, if_neg hm, hj, hp, Prod.mk.injEq] at h
            obtain ⟨h1, h2⟩ := h
            subst h1
            exact ⟨[], by simp, fun hok => by rw [← h2] at hok; cases hok⟩
          | some par =>
            by_cases hpar : par ≠ ""
            · rcases hPL : parentLoop env f par st with ⟨st3, rp⟩
              obtain ⟨evs1, e1, e2⟩ := (ih).2 par st st3 rp hPL
              simp only [legacyLoadImage, if_neg hm, hj, hp, if_pos hpar, hPL] at h
              cases rp with
              | spin =>
                simp only [Prod.mk.injEq] at h
                obtain ⟨h1, h2⟩ := h
                subst h1
                exact ⟨evs1, e1, fun hok => by rw [← h2] at hok; cases hok⟩
              | err m =>
                simp only [Prod.mk.injEq] at h
                obtain ⟨h1, h2⟩ := h
                subst h1
                exact ⟨evs1, e1, fun hok => by rw [← h2] at hok; cases hok⟩
              | ok parentID =>
                obtain ⟨evs2, f1, f2⟩ := legacyFinish_balance env oldID js parentID st3
                rcases hF : legacyFinish env oldID js parentID st3 with ⟨st4, rF⟩
                rw [hF] at f1 f2
                simp only [hF, Prod.mk.injEq] at h
                obtain ⟨h1, h2⟩ := h
                subst h1
                subst h2
                refine ⟨evs1 ++ evs2, ?_, ?_⟩
                · show st4.trace = _
                  rw [f1, e1]
                  simp
                · intro hok
                  rw [List.filterMap_append, List.filterMap_append,
                    e2 parentID rfl, f2 hok]
            · obtain ⟨evs2, f1, f2⟩ := legacyFinish_balance env oldID js "" st
              rcases hF : legacyFinish env oldID js "" st with ⟨st4, rF⟩
              rw [hF] at f1 f2
              simp only [legacyLoadImage, if_neg hm, hj, hp, if_neg hpar, hF,
                Prod.mk.injEq] at h
              obtain ⟨h1, h2⟩ := h
              subst h1
              subst h2
              exact ⟨evs2, f1, fun hok => f2 hok⟩
    · intro p st st2 r h
      cases hl : st.loadedMap.lookup p with
      | some pid =>
        simp only [parentLoop, hl, Prod.mk.injEq] at h
        obtain ⟨h1, _⟩ := h
        subst h1
        exact ⟨[], by simp, fun _ _ => rfl⟩
      | none =>
        rcases hL : legacyLoadImage env f p st with ⟨st3, rl⟩
        obtain ⟨evs1, e1, e2⟩ := (ih).1 p st st3 rl hL
        simp only [parentLoop, hl, hL] at h
        cases rl with
        | spin =>
          simp only [Prod.mk.injEq] at h
          obtain ⟨h1, h2⟩ := h
          subst h1
          exact ⟨evs1, e1, fun pid hok => by rw [← h2] at hok; cases hok⟩
        | err m =>
          simp only [Prod.mk.injEq] at h
          obtain ⟨h1, h2⟩ := h
          subst h1
          exact ⟨evs1, e1, fun pid hok => by rw [← h2] at hok; cases hok⟩
        | ok =>
          obtain ⟨evs2, g1, g2⟩ := (ih).2 p st3 st2 r h
          refine ⟨evs1 ++ evs2, ?_, ?_⟩
          · rw [g1, e1]
            simp
          · intro pid hok
            rw [List.filterMap_append, List.filterMap_append,
              e2 rfl, g2 pid hok]

/-- C6 counterexample: on the legacy archive of `envC6`, `legacyLoadImage`
registers the layer (acquiring a reference) and then fails deriving the
history entry; it returns the error with NO release event in its trace, so the
registered layer reference leaks on this error-return path between layer
registration and image creation. -/
theorem legacy_error_path_leaks_reference :
    (legacyLoadImage envC6 1 "A" ⟨[], []⟩).2 = LegacyRes.err "history from config error"
    ∧ (legacyLoadImage envC6 1 "A" ⟨[], []⟩).1.trace = [LEvent.register "A" "sha256:dA"] := by
  decide

/-- C6 amended: (1) every layer reference acquired on the manifest load path —
a successful ChainID lookup or a registration — is released at `Load` exit on
every path, success and error alike, through the deferred releases; (2) the
legacy loader balances registrations with releases only on successful returns:
`legacyLoadImage`'s error returns between layer registration and image
creation leak the registered reference (see the counterexample). -/
theorem releases_manifest_always_legacy_on_success :
    (∀ (env : LoadEnv) (manifest : List ManifestItem) (st : LoadState) (r : Option String),
      Load env manifest = (st, r) →
      ∀ d ∈ st.trace.filterMap acquiredDiff, Event.releaseLayer d ∈ (loadRun env manifest).1)
    ∧ (∀ (env : LegacyEnv) (fuel : Nat) (oldID : String) (st st2 : LegacyState),
      legacyLoadImage env fuel oldID st = (st2, LegacyRes.ok) →
      ∃ evs, st2.trace = st.trace ++ evs
        ∧ evs.filterMap registeredDiff = evs.filterMap releasedDiff) := by
  constructor
  · intro env manifest st r h d hd
    have hdef := Load_deferred_eq env manifest st r h
    have hmem : d ∈ st.deferred := by
      rw [hdef]
      exact List.mem_reverse.mpr hd
    unfold loadRun
    rw [h]
    simp only [List.mem_append]
    right
    exact List.mem_map_of_mem Event.releaseLayer hmem
  · intro env fuel oldID st st2 h
    obtain ⟨evs, h1, h2⟩ := (legacy_ok_balance env fuel).1 oldID st st2 LegacyRes.ok h
    exact ⟨evs, h1, h2 rfl⟩

/-- Witness for the amended C6: the acquired layer of `envC8`'s one-item load
is released at exit, and a successful legacy root-image load balances its
registration with a release. -/
theorem releases_manifest_always_legacy_on_success_witness :
    Load envC8 [⟨"cfg0", ["l0"], [], ""⟩]
        = ((Load envC8 [⟨"cfg0", ["l0"], [], ""⟩]).1, none)
    ∧ "sha256:d0" ∈ (Load envC8 [⟨"cfg0", ["l0"], [], ""⟩]).1.trace.filterMap acquiredDiff
    ∧ Event.releaseLayer "sha256:d0" ∈ (loadRun envC8 [⟨"cfg0", ["l0"], [], ""⟩]).1
    ∧ legacyLoadImage envC5W 2 "B" ⟨[], []⟩
        = ((legacyLoadImage envC5W 2 "B" ⟨[], []⟩).1, LegacyRes.ok)
    ∧ ∃ evs, (legacyLoadImage envC5W 2 "B" ⟨[], []⟩).1.trace
          = (⟨[], []⟩ : LegacyState).trace ++ evs
        ∧ evs.filterMap registeredDiff = evs.filterMap releasedDiff := by
  have h1 : Load envC8 [⟨"cfg0", ["l0"], [], ""⟩]
      = ((Load envC8 [⟨"cfg0", ["l0"], [], ""⟩]).1, none) := by decide
  have h2 : "sha256:d0"
      ∈ (Load envC8 [⟨"cfg0", ["l0"], [], ""⟩]).1.trace.filterMap acquiredDiff := by decide
  have h4 : legacyLoadImage envC5W 2 "B" ⟨[], []⟩
      = ((legacyLoadImage envC5W 2 "B" ⟨[], []⟩).1, LegacyRes.ok) := by decide
  exact ⟨h1, h2,
    releases_manifest_always_legacy_on_success.1 envC8 [⟨"cfg0", ["l0"], [], ""⟩] _ none h1
      "sha256:d0" h2,
    h4,
    releases_manifest_always_legacy_on_success.2 envC5W 2 "B" ⟨[], []⟩ _ h4⟩

/-- C9: `Load` inspects exactly the first 4 bytes of the stream
non-destructively — the peek returns the stream's first 4 bytes, and reading
the `bufferedReadCloser` afterwards yields the full stream from byte 0 — and
dispatches to the single-blob loader if and only if those bytes equal
`0x68 0x73 0x71 0x73`, otherwise unpacking the stream as a structured tar;
streams shorter than 4 bytes abort with the peek error. -/
theorem peek_nondestructive_dispatch (input : List Nat) :
    (4 ≤ input.length →
      ((BufioReader.mk [] input).peek 4).1 = some (input.take 4)
      ∧ ((BufioReader.mk [] input).peek 4).2.readAll = input)
    ∧ (input.length < 4 → ((BufioReader.mk [] input).peek 4).1 = none)
    ∧ loadDispatch input
        = (if 4 ≤ input.length then
            (if input.take 4 = squashfsMagic then Dispatch.squashfs input
             else Dispatch.structuredTar input)
          else Dispatch.peekError) := by
  by_cases h4 : 4 ≤ input.length
  · have hp : (BufioReader.mk [] input).peek 4
        = (some (input.take 4), ⟨input.take 4, input.drop 4⟩) := by
      unfold BufioReader.peek
      simp only [List.length_nil]
      rw [if_neg (by omega : ¬ (4 : Nat) ≤ 0),
        if_pos (by omega : (4 : Nat) - 0 ≤ input.length)]
      simp [List.take_take]
    refine ⟨fun _ => ⟨by rw [hp], by rw [hp]; simp [BufioReader.readAll]⟩,
      fun hlt => absurd h4 (by omega), ?_⟩
    unfold loadDispatch
    simp only [hp]
    rw [if_pos h4]
    by_cases hm : input.take 4 = squashfsMagic
    · rw [if_pos hm, if_pos hm]
      unfold BufioReader.readAll
      simp
    · rw [if_neg hm, if_neg hm]
      unfold BufioReader.readAll
      simp
  · have hp : (BufioReader.mk [] input).peek 4 = (none, ⟨input, []⟩) := by
      unfold BufioReader.peek
      simp only [List.length_nil]
      rw [if_neg (by omega : ¬ (4 : Nat) ≤ 0),
        if_neg (by omega : ¬ (4 : Nat) - 0 ≤ input.length)]
      simp
    refine ⟨fun hge => absurd hge h4, fun _ => by rw [hp], ?_⟩
    unfold loadDispatch
    simp only [hp]
    rw [if_neg h4]

/-- Witness for C9: a 5-byte magic-led stream peeks its first 4 bytes
non-destructively and dispatches to the single-blob loader with the full
stream; a 1-byte stream fails the peek. -/
theorem peek_nondestructive_dispatch_witness :
    (4 ≤ ([0x68, 0x73, 0x71, 0x73, 0xAA] : List Nat).length
      ∧ ((BufioReader.mk [] [0x68, 0x73, 0x71, 0x73, 0xAA]).peek 4).1
          = some [0x68, 0x73, 0x71, 0x73]
      ∧ ((BufioReader.mk [] [0x68, 0x73, 0x71, 0x73, 0xAA]).peek 4).2.readAll
          = [0x68, 0x73, 0x71, 0x73, 0xAA])
    ∧ loadDispatch [0x68, 0x73, 0x71, 0x73, 0xAA]
        = Dispatch.squashfs [0x68, 0x73, 0x71, 0x73, 0xAA]
    ∧ (([0x61] : List Nat).length < 4
      ∧ ((BufioReader.mk [] [0x61]).peek 4).1 = none) := by
  have h := peek_nondestructive_dispatch [0x68, 0x73, 0x71, 0x73, 0xAA]
  have h2 := peek_nondestructive_dispatch [0x61]
  refine ⟨⟨by decide, ?_, ?_⟩, ?_, by decide, h2.2.1 (by decide)⟩
  · exact (h.1 (by decide)).1
  · exact (h.1 (by decide)).2
  · exact (h.2.2).trans (by decide)

/-- C3 counterexample: on a magic-led blob with every collaborator succeeding,
the squashfs load succeeds and creates exactly one image — but its RootFS
DiffID sequence has TWO elements, a zero-valued DiffID left over from
`make([]layer.DiffID, 1)` followed by the synthesized archive's DiffID, not a
single-element sequence. -/
theorem squashfs_rootfs_not_single_element :
    loadDispatch envC3.input = Dispatch.squashfs envC3.input
    ∧ (loadSquashFS envC3).2 = none
    ∧ (loadSquashFS envC3).1.filter isCreateImg
        = [SqEvent.createImg ["", "sha256:H"] [] "imgX"]
    ∧ (["", "sha256:H"] : List String).length ≠ 1 := by
  decide

/-- A successful `loadSquashFSTail` forces the obtained DiffID to match, and
its appended events are exactly: layer line, destination line, the rename of
the temporary blob to the backend's cache-id path, the single image creation
with the given rootFS extended by the DiffID and empty history, the loaded
line, and the deferred release. -/
lemma loadSquashFSTail_ok (env : SqEnv) (root tmp : String) (rootFS : List String)
    (diffID obtained : String) (evs : List SqEvent) (tr : List SqEvent)
    (h : loadSquashFSTail env root tmp rootFS diffID obtained evs = (tr, none)) :
    obtained = diffID
    ∧ ∃ imgID cacheID,
      env.getCacheID diffID = some cacheID
      ∧ tr = evs ++ [SqEvent.writeOut ("layer:" ++ obtained ++ "\n"),
          SqEvent.writeOut ("destination:" ++ (root ++ "/squashfs/" ++ cacheID) ++ "\n"),
          SqEvent.rename tmp (root ++ "/squashfs/" ++ cacheID),
          SqEvent.createImg (rootFS ++ [diffID]) [] imgID,
          SqEvent.writeOut ("Loaded image ID: " ++ imgID ++ "\n"),
          SqEvent.releaseLayer obtained] := by
  cases hc : env.getCacheID diffID with
  | none =>
    simp only [loadSquashFSTail, hc, Prod.mk.injEq] at h
    exact absurd h.2 (Option.some_ne_none _)
  | some cacheID =>
    by_cases hd : diffID ≠ obtained
    · simp only [loadSquashFSTail, hc, if_pos hd, Prod.mk.injEq] at h
      exact absurd h.2 (Option.some_ne_none _)
    · cases hcr : env.create (env.marshalImage (rootFS ++ [diffID]) []) with
      | none =>
        simp only [loadSquashFSTail, hc, if_neg hd, hcr, Prod.mk.injEq] at h
        exact absurd h.2 (Option.some_ne_none _)
      | some imgID =>
        simp only [loadSquashFSTail, hc, if_neg hd, hcr, Prod.mk.injEq, and_true] at h
        push_neg at hd
        refine ⟨hd.symm, imgID, cacheID, rfl, ?_⟩
        rw [← h]
        simp

/-- A magic-led stream of at least 4 bytes dispatches to the single-blob
loader with the full stream. -/
lemma loadDispatch_magic (input : List Nat) (hm : input.take 4 = squashfsMagic)
    (h4 : 4 ≤ input.length) : loadDispatch input = Dispatch.squashfs input := by
  have hp : (BufioReader.mk [] input).peek 4
      = (some (input.take 4), ⟨input.take 4, input.drop 4⟩) := by
    unfold BufioReader.peek
    simp only [List.length_nil]
    rw [if_neg (by omega : ¬ (4 : Nat) ≤ 0),
      if_pos (by omega : (4 : Nat) - 0 ≤ input.length)]
    simp [List.take_take]
  unfold loadDispatch
  simp only [hp]
  rw [if_pos hm]
  unfold BufioReader.readAll
  simp

/-- C3 amended: for every input stream whose first 4 bytes are
`0x68 0x73 0x71 0x73`, a successful `Load` dispatches to the single-blob
loader and creates exactly one image — whose RootFS DiffID sequence has TWO
elements, a zero-valued DiffID (left over from `make([]layer.DiffID, 1)`)
followed by the DiffID of the synthesized one-entry archive — with no history,
and invokes the rename of the temporary blob file to the backend's
storage-key (cache id) path. -/
theorem squashfs_success_shape (env : SqEnv) (tr : List SqEvent)
    (hmagic : env.input.take 4 = squashfsMagic)
    (hlen : 4 ≤ env.input.length)
    (hok : loadSquashFS env = (tr, none)) :
    loadDispatch env.input = Dispatch.squashfs env.input
    ∧ ∃ imgID cacheID,
        tr.filter isCreateImg
          = [SqEvent.createImg
              ["", "sha256:" ++ env.hashBytes (env.tarOf (env.hashBytes env.input))] [] imgID]
        ∧ env.getCacheID ("sha256:" ++ env.hashBytes (env.tarOf (env.hashBytes env.input)))
            = some cacheID
        ∧ SqEvent.rename (rootDirOf env.status ++ "/squashfs/import-" ++ env.uuid)
            (rootDirOf env.status ++ "/squashfs/" ++ cacheID) ∈ tr := by
  refine ⟨loadDispatch_magic env.input hmagic hlen, ?_⟩
  by_cases hroot : rootDirOf env.status = ""
  · simp only [loadSquashFS, if_pos hroot, Prod.mk.injEq] at hok
    exact absurd hok.2 (Option.some_ne_none _)
  · by_cases hc1 : ¬ env.createOk (rootDirOf env.status ++ "/squashfs/import-" ++ env.uuid)
    · simp only [loadSquashFS, if_neg hroot, if_pos hc1, Prod.mk.injEq] at hok
      exact absurd hok.2 (Option.some_ne_none _)
    · by_cases hc2 : ¬ env.copyOk
      · simp only [loadSquashFS, if_neg hroot, if_neg hc1, if_pos hc2, Prod.mk.injEq] at hok
        exact absurd hok.2 (Option.some_ne_none _)
      · by_cases hc3 : ¬ env.writeTarOk
        · simp only [loadSquashFS, if_neg hroot, if_neg hc1, if_neg hc2, if_pos hc3,
            Prod.mk.injEq] at hok
          exact absurd hok.2 (Option.some_ne_none _)
        · by_cases hc4 : ¬ env.hashFileOk
          · simp only [loadSquashFS, if_neg hroot, if_neg hc1, if_neg hc2, if_neg hc3,
              if_pos hc4, Prod.mk.injEq] at hok
            exact absurd hok.2 (Option.some_ne_none _)
          · cases hg : env.lsGet (chainID env.hash
                (([""] : List String)
                  ++ ["sha256:" ++ env.hashBytes (env.tarOf (env.hashBytes env.input))])) with
            | some ldiff =>
              simp only [loadSquashFS, if_neg hroot, if_neg hc1, if_neg hc2, if_neg hc3,
                if_neg hc4, hg] at hok
              obtain ⟨hde, imgID, cacheID, hcache, htr⟩ :=
                loadSquashFSTail_ok env _ _ _ _ _ _ _ hok
              refine ⟨imgID, cacheID, ?_, hcache, ?_⟩
              · rw [htr]
                simp [isCreateImg, List.filter_append, List.filter]
              · rw [htr]
                simp
            | none =>
              cases hr : env.register "content.tar" with
              | none =>
                simp only [loadSquashFS, if_neg hroot, if_neg hc1, if_neg hc2, if_neg hc3,
                  if_neg hc4, hg, hr, Prod.mk.injEq] at hok
                exact absurd hok.2 (Option.some_ne_none _)
              | some adiff =>
                simp only [loadSquashFS, if_neg hroot, if_neg hc1, if_neg hc2, if_neg hc3,
                  if_neg hc4, hg, hr] at hok
                obtain ⟨hde, imgID, cacheID, hcache, htr⟩ :=
                  loadSquashFSTail_ok env _ _ _ _ _ _ _ hok
                refine ⟨imgID, cacheID, ?_, hcache, ?_⟩
                · rw [htr]
                  simp [isCreateImg, List.filter_append, List.filter]
                · rw [htr]
                  simp

/-- Witness for the amended C3, on the all-succeeding fixture `envC3`. -/
theorem squashfs_success_shape_witness :
    envC3.input.take 4 = squashfsMagic
    ∧ loadSquashFS envC3 = ((loadSquashFS envC3).1, none)
    ∧ (loadDispatch envC3.input = Dispatch.squashfs envC3.input
      ∧ ∃ imgID cacheID,
        (loadSquashFS envC3).1.filter isCreateImg
          = [SqEvent.createImg
              ["", "sha256:" ++ envC3.hashBytes (envC3.tarOf (envC3.hashBytes envC3.input))]
              [] imgID]
        ∧ envC3.getCacheID
            ("sha256:" ++ envC3.hashBytes (envC3.tarOf (envC3.hashBytes envC3.input)))
            = some cacheID
        ∧ SqEvent.rename (rootDirOf envC3.status ++ "/squashfs/import-" ++ envC3.uuid)
            (rootDirOf envC3.status ++ "/squashfs/" ++ cacheID)
            ∈ (loadSquashFS envC3).1) := by
  have h2 : loadSquashFS envC3 = ((loadSquashFS envC3).1, none) := by decide
  exact ⟨by decide, h2,
    squashfs_success_shape envC3 (loadSquashFS envC3).1 (by decide) (by decide) h2⟩

/-- C10: when the squashfs source file for a layer name does not exist,
`squashfsMount` returns nil without invoking any mount command; when it
exists, the squashfs mount command is invoked only when the current
mount-table output does not already contain the layer's diff path — in
particular a call for an already-mounted layer only lists the mount table and
returns nil. -/
theorem squashfsMount_dedup (env : MountEnv) (name : String) :
    (env.statOk (env.rootPath ++ "/squashfs/" ++ name) = false →
      squashfsMount env name = ([], none))
    ∧ (∀ out, env.statOk (env.rootPath ++ "/squashfs/" ++ name) = true →
        env.mountTable = some out →
        strContains out (env.rootPath ++ "/diff/" ++ name) = true →
        squashfsMount env name = ([MEvent.execMountList], none))
    ∧ (∀ out, env.mountTable = some out →
        MEvent.execMountSquash (env.rootPath ++ "/squashfs/" ++ name)
            (env.rootPath ++ "/diff/" ++ name) ∈ (squashfsMount env name).1 →
        strContains out (env.rootPath ++ "/diff/" ++ name) = false) := by
  refine ⟨?_, ?_, ?_⟩
  · intro hstat
    simp [squashfsMount, hstat]
  · intro out hstat htab hcont
    simp [squashfsMount, hstat, htab, hcont]
  · intro out htab hmem
    by_cases hstat : env.statOk (env.rootPath ++ "/squashfs/" ++ name)
    · by_cases hcont : strContains out (env.rootPath ++ "/diff/" ++ name)
      · simp only [squashfsMount, hstat, if_true, htab, hcont, not_true_eq_false,
          Bool.not_eq_true, if_neg] at hmem
        simp at hmem
      · simpa using hcont
    · simp only [squashfsMount, Bool.not_eq_true] at hmem
      rw [if_neg (by simp [hstat])] at hmem
      simp at hmem

/-- Witness for C10: a nonexistent source returns nil with no command, and an
already-mounted layer (the table of `envC10` lists its diff path) performs no
second mount. -/
theorem squashfsMount_dedup_witness :
    envC10.statOk (envC10.rootPath ++ "/squashfs/" ++ "n2") = false
    ∧ squashfsMount envC10 "n2" = ([], none)
    ∧ envC10.statOk (envC10.rootPath ++ "/squashfs/" ++ "n1") = true
    ∧ envC10.mountTable = some "/dev/loop0 on /r/diff/n1 type squashfs (ro)"
    ∧ strContains "/dev/loop0 on /r/diff/n1 type squashfs (ro)"
        (envC10.rootPath ++ "/diff/" ++ "n1") = true
    ∧ squashfsMount envC10 "n1" = ([MEvent.execMountList], none) := by
  refine ⟨by decide, ?_, by decide, by decide, by decide, ?_⟩
  · exact (squashfsMount_dedup envC10 "n2").1 (by decide)
  · exact (squashfsMount_dedup envC10 "n1").2.1
      "/dev/loop0 on /r/diff/n1 type squashfs (ro)" (by decide) (by decide) (by decide)
